import Mathlib

/-!
Verification development for the MapMyNotes text-to-mindmap pipeline
(`modules/pipeline.py` and `modules/copilot.py`).

The pipeline's dynamic values (parsed model output) are modelled by the
mutual `Json` / `JsonList` / `JsonObj` types below.  Numbers are modelled
as integers: float literals are outside this embedding.  External effects
are modelled as oracles: `gw : Nat → String` is the stream of strings
returned by `_call_gemini` (one per call, in call order; this covers
ordinary responses, sentinel failure strings and empty responses), and
`uu : Nat → String` is the stream of `uuid.uuid4().hex` strings consumed
by `_short_id` (one per generated id, in creation order).  Python
exceptions are modelled with `Except PyErr`; the message of an exception
is abstracted to the name of its class.  Python strings are treated as
lists of code points (Python indexes and slices strings by code point).
-/

mutual

inductive Json where
  | null
  | bool (b : Bool)
  | num (n : Int)
  | str (s : String)
  | arr (elems : JsonList)
  | obj (fields : JsonObj)

inductive JsonList where
  | nil
  | cons (hd : Json) (tl : JsonList)

inductive JsonObj where
  | nil
  | cons (key : String) (val : Json) (tl : JsonObj)

end

/-- Number of entries of a `JsonList`. -/
def JsonList.length : JsonList → Nat
  | .nil => 0
  | .cons _ tl => 1 + tl.length

/-- Python `xs[:n]` on a list value. -/
def JsonList.take : Nat → JsonList → JsonList
  | 0, _ => .nil
  | _, .nil => .nil
  | n + 1, .cons hd tl => .cons hd (JsonList.take n tl)

def JsonList.isEmpty : JsonList → Bool
  | .nil => true
  | .cons _ _ => false

def JsonObj.isEmpty : JsonObj → Bool
  | .nil => true
  | .cons _ _ _ => false

/-- Keys of a Python dict, in insertion order (iterating a dict yields its
keys). -/
def JsonObj.keys : JsonObj → List String
  | .nil => []
  | .cons k _ tl => k :: tl.keys

mutual

/-- Size measure on `Json`, used to bound the recursion of functions that
walk a value through dictionary lookups. -/
def Json.jsize : Json → Nat
  | .null => 1
  | .bool _ => 1
  | .num _ => 1
  | .str _ => 1
  | .arr xs => 1 + xs.jsizeL
  | .obj kvs => 1 + kvs.jsizeO

def JsonList.jsizeL : JsonList → Nat
  | .nil => 0
  | .cons hd tl => hd.jsize + tl.jsizeL

def JsonObj.jsizeO : JsonObj → Nat
  | .nil => 0
  | .cons _ v tl => 1 + v.jsize + tl.jsizeO

end

/-- Python truthiness of a `Json` value. -/
def Json.truthy : Json → Bool
  | .null => false
  | .bool b => b
  | .num n => n != 0
  | .str s => s != ""
  | .arr xs => !xs.isEmpty
  | .obj kvs => !kvs.isEmpty

/-- Python `d.get(k, default)` on a dict value (keys of a Python dict are
unique, so first match is the match). -/
def JsonObj.get : JsonObj → String → Json → Json
  | .nil, _, d => d
  | .cons k v tl, key, d => if k = key then v else tl.get key d

/-- Python `d[k] = v` on a dict: an existing key keeps its position and
gets the new value, a fresh key is appended. -/
def JsonObj.insert : JsonObj → String → Json → JsonObj
  | .nil, key, v => .cons key v .nil
  | .cons k v0 tl, key, v =>
    if k = key then .cons k v tl else .cons k v0 (tl.insert key v)

/-- Python exception classes that the modelled code can raise. -/
inductive PyErr where
  | indexError
  | attributeError
  | typeError
  | valueError
deriving Repr, DecidableEq

/-- Models `str(e)`: the exception's message, abstracted here to the name
of its class. -/
def PyErr.msg : PyErr → String
  | .indexError => "IndexError"
  | .attributeError => "AttributeError"
  | .typeError => "TypeError"
  | .valueError => "ValueError"

/-- Python `x[:n]` on a dynamic value: strings and lists slice, every
other type raises `TypeError`. -/
def pySlice : Json → Nat → Except PyErr Json
  | .str s, n => .ok (.str ⟨s.data.take n⟩)
  | .arr xs, n => .ok (.arr (xs.take n))
  | _, _ => .error .typeError

/-- Rebuild a `JsonList` from a Lean list. -/
def JsonList.ofList : List Json → JsonList
  | [] => .nil
  | x :: xs => .cons x (JsonList.ofList xs)

/-- Python iteration over a dynamic value: a list yields its elements, a
dict yields its keys, a string yields its characters as one-character
strings, everything else raises `TypeError`. -/
def pyIter : Json → Except PyErr JsonList
  | .arr xs => .ok xs
  | .obj kvs => .ok (JsonList.ofList (kvs.keys.map Json.str))
  | .str s => .ok (JsonList.ofList (s.data.map (fun c => Json.str ⟨[c]⟩)))
  | _ => .error .typeError

/-- Characters removed by Python `str.strip()` with no argument. -/
def pyWSb (c : Char) : Bool :=
  c = ' ' || c = '\t' || c = '\n' || c = '\r' || c = '\x0b' || c = '\x0c'

/-- Strip characters satisfying `p` from both ends of a list. -/
def stripEnds (p : Char → Bool) (cs : List Char) : List Char :=
  ((cs.dropWhile p).reverse.dropWhile p).reverse

/-- Python `s.strip()`. -/
def pyStrip (s : String) : String := ⟨stripEnds pyWSb s.data⟩

/-- Python `s.strip(chars)`. -/
def pyStripChars (chars : String) (s : String) : String :=
  ⟨stripEnds (fun c => chars.data.contains c) s.data⟩

/-- Python `s.lower()` (ASCII letters; the embedding does not model
full-unicode case mapping). -/
def pyLower (s : String) : String := ⟨s.data.map Char.toLower⟩

/-- Line-break characters recognised by Python `str.splitlines`. -/
def pyLineBreak (c : Char) : Bool :=
  c = '\n' || c = '\r' || c = '\x0b' || c = '\x0c' ||
  c = '\x1c' || c = '\x1d' || c = '\x1e' || c = '\x85' ||
  c = '\u2028' || c = '\u2029'

/-- Python `s.splitlines()[0]`: raises `IndexError` on the empty string
(whose `splitlines` is the empty list), otherwise returns the first
line. -/
def pySplitlinesHead (s : String) : Except PyErr String :=
  if s.data.isEmpty then .error .indexError
  else .ok ⟨s.data.takeWhile (fun c => !pyLineBreak c)⟩

/-- Python `s.split()`: split on runs of whitespace, dropping empty
pieces. -/
def splitWsAux : List Char → List Char → List String
  | [], acc => if acc.isEmpty then [] else [⟨acc.reverse⟩]
  | c :: cs, acc =>
    if pyWSb c then
      if acc.isEmpty then splitWsAux cs []
      else ⟨acc.reverse⟩ :: splitWsAux cs []
    else splitWsAux cs (c :: acc)

def pySplitWs (s : String) : List String := splitWsAux s.data []

/-- Python `sep.join(parts)` for string parts. -/
def joinChars (sep : List Char) : List (List Char) → List Char
  | [] => []
  | [x] => x
  | x :: xs => x ++ sep ++ joinChars sep xs

def pyJoin (sep : String) (parts : List String) : String :=
  ⟨joinChars sep.data (parts.map String.data)⟩

/-- Python `a + " " + b` where both operands must be strings (any other
dynamic type raises `TypeError`). -/
def pyAddStrings (a b : Json) : Except PyErr String :=
  match a, b with
  | .str x, .str y => .ok (x ++ " " ++ y)
  | _, _ => .error .typeError

/-- Python `"\n".join(x)` on a dynamic value: a list joins its elements
(which must all be strings, else `TypeError`), a dict joins its keys, a
string joins its characters, anything else raises `TypeError`. -/
def pyJoinNl (j : Json) : Except PyErr String :=
  match j with
  | .arr xs => (collectStrs xs).map (pyJoin "\n")
  | .obj kvs => .ok (pyJoin "\n" kvs.keys)
  | .str s => .ok (pyJoin "\n" (s.data.map (fun c => ⟨[c]⟩)))
  | _ => .error .typeError
where
  collectStrs : JsonList → Except PyErr (List String)
    | .nil => .ok []
    | .cons (.str s) tl => (collectStrs tl).map (s :: ·)
    | .cons _ _ => .error .typeError

/-- Python `x.strip()` on a dynamic value: only strings have `strip`,
anything else raises `AttributeError`. -/
def pyStripDyn (j : Json) : Except PyErr String :=
  match j with
  | .str s => .ok (pyStrip s)
  | _ => .error .attributeError

/-! ### JSON serialization (`json.dumps`) -/

def digitChar (d : Nat) : Char := Char.ofNat (48 + d)

def natCharsAux : Nat → Nat → List Char
  | 0, _ => []
  | fuel + 1, n =>
    if n < 10 then [digitChar n] else natCharsAux fuel (n / 10) ++ [digitChar (n % 10)]

/-- Decimal digits of a natural number, most significant first. -/
def natChars (n : Nat) : List Char := natCharsAux (n + 1) n

/-- Decimal representation of an integer, as Python prints it. -/
def intChars : Int → List Char
  | .ofNat n => natChars n
  | .negSucc m => '-' :: natChars (m + 1)

def hexDigitChar (d : Nat) : Char :=
  if d < 10 then digitChar d else Char.ofNat (87 + d)

/-- JSON escaping of one character: `"` and `\` are escaped, control
characters become their named escapes or a `\u00xx` escape, everything
else is emitted literally (the `ensure_ascii=False` convention; the
round-trip behaviour is the same either way). -/
def escChar (c : Char) : List Char :=
  if c = '"' then ['\\', '"']
  else if c = '\\' then ['\\', '\\']
  else if c = '\n' then ['\\', 'n']
  else if c = '\t' then ['\\', 't']
  else if c = '\r' then ['\\', 'r']
  else if c = '\x08' then ['\\', 'b']
  else if c = '\x0c' then ['\\', 'f']
  else if c.toNat < 32 then
    ['\\', 'u', '0', '0', hexDigitChar (c.toNat / 16), hexDigitChar (c.toNat % 16)]
  else [c]

/-- A JSON string literal for `s`. -/
def dumpStrChars (s : String) : List Char :=
  '"' :: (s.data.map escChar).flatten ++ ['"']

mutual

/-- `json.dumps` with the default separators, as a character list. -/
def Json.dumps : Json → List Char
  | .null => "null".data
  | .bool b => if b then "true".data else "false".data
  | .num n => intChars n
  | .str s => dumpStrChars s
  | .arr xs => '[' :: (xs.dumpsItems ++ [']'])
  | .obj kvs => '{' :: (kvs.dumpsFields ++ ['}'])

def JsonList.dumpsItems : JsonList → List Char
  | .nil => []
  | .cons hd tl => hd.dumps ++ tl.dumpsRestItems

def JsonList.dumpsRestItems : JsonList → List Char
  | .nil => []
  | .cons hd tl => ',' :: ' ' :: (hd.dumps ++ tl.dumpsRestItems)

def JsonObj.dumpsFields : JsonObj → List Char
  | .nil => []
  | .cons k v tl => dumpStrChars k ++ ':' :: ' ' :: (v.dumps ++ tl.dumpsRestFields)

def JsonObj.dumpsRestFields : JsonObj → List Char
  | .nil => []
  | .cons k v tl =>
    ',' :: ' ' :: (dumpStrChars k ++ ':' :: ' ' :: (v.dumps ++ tl.dumpsRestFields))

end

/-- `json.dumps(x)` as a string (the spec's `json_string`). -/
def json_string (x : Json) : String := ⟨x.dumps⟩

/-! ### JSON parsing (`json.loads`)

A fuel-indexed recursive-descent parser for the JSON fragment this
embedding covers (no float literals, no `NaN`/`Infinity`, no surrogate
pairing of `\u` escapes).  The fuel only bounds recursion depth; the
top-level wrapper supplies more than enough. -/

def jsonWSb (c : Char) : Bool := c = ' ' || c = '\t' || c = '\n' || c = '\r'

def skipWs (cs : List Char) : List Char := cs.dropWhile jsonWSb

def hexVal (c : Char) : Option Nat :=
  if '0' ≤ c ∧ c ≤ '9' then some (c.toNat - 48)
  else if 'a' ≤ c ∧ c ≤ 'f' then some (c.toNat - 87)
  else if 'A' ≤ c ∧ c ≤ 'F' then some (c.toNat - 55)
  else none

/-- Body of a JSON string literal (after the opening quote): returns the
decoded characters and the remaining input after the closing quote.
Unescaped control characters are rejected, as in strict `json.loads`. -/
def parseStrBody : List Char → Option (List Char × List Char)
  | [] => none
  | c :: rest =>
    if c = '"' then some ([], rest)
    else if c = '\\' then
      match rest with
      | [] => none
      | e :: rest2 =>
        if e = '"' then (parseStrBody rest2).map (fun p => ('"' :: p.1, p.2))
        else if e = '\\' then (parseStrBody rest2).map (fun p => ('\\' :: p.1, p.2))
        else if e = '/' then (parseStrBody rest2).map (fun p => ('/' :: p.1, p.2))
        else if e = 'n' then (parseStrBody rest2).map (fun p => ('\n' :: p.1, p.2))
        else if e = 't' then (parseStrBody rest2).map (fun p => ('\t' :: p.1, p.2))
        else if e = 'r' then (parseStrBody rest2).map (fun p => ('\r' :: p.1, p.2))
        else if e = 'b' then (parseStrBody rest2).map (fun p => ('\x08' :: p.1, p.2))
        else if e = 'f' then (parseStrBody rest2).map (fun p => ('\x0c' :: p.1, p.2))
        else if e = 'u' then
          match rest2 with
          | h1 :: h2 :: h3 :: h4 :: rest3 =>
            match hexVal h1, hexVal h2, hexVal h3, hexVal h4 with
            | some a, some b, some c2, some d =>
              (parseStrBody rest3).map
                (fun p => (Char.ofNat (((a * 16 + b) * 16 + c2) * 16 + d) :: p.1, p.2))
            | _, _, _, _ => none
          | _ => none
        else none
    else if c.toNat < 32 then none
    else (parseStrBody rest).map (fun p => (c :: p.1, p.2))

def digitVal (c : Char) : Nat := c.toNat - 48

def foldDigits (ds : List Char) : Nat := ds.foldl (fun a c => a * 10 + digitVal c) 0

/-- Split an optional leading minus sign off a token. -/
def intSgn : List Char → Bool × List Char
  | '-' :: r => (true, r)
  | cs => (false, cs)

/-- An integer literal (strict JSON grammar: optional minus, no leading
zeros, and no fraction or exponent — float literals are outside this
embedding). -/
def parseIntToken (cs : List Char) : Option (Int × List Char) :=
  let sgn := intSgn cs
  let ds := sgn.2.takeWhile Char.isDigit
  let rest := sgn.2.dropWhile Char.isDigit
  if ds.isEmpty then none
  else if 1 < ds.length ∧ ds.head? = some '0' then none
  else
    match rest with
    | '.' :: _ => none
    | 'e' :: _ => none
    | 'E' :: _ => none
    | _ => some (if sgn.1 then -(foldDigits ds : Int) else (foldDigits ds : Int), rest)

mutual

def parseVal : Nat → List Char → Option (Json × List Char)
  | 0, _ => none
  | fuel + 1, cs =>
    match skipWs cs with
    | '{' :: rest => (parseObjFirst fuel rest).map (fun p => (Json.obj p.1, p.2))
    | '[' :: rest => (parseArrFirst fuel rest).map (fun p => (Json.arr p.1, p.2))
    | '"' :: rest => (parseStrBody rest).map (fun p => (Json.str ⟨p.1⟩, p.2))
    | 't' :: 'r' :: 'u' :: 'e' :: rest => some (Json.bool true, rest)
    | 'f' :: 'a' :: 'l' :: 's' :: 'e' :: rest => some (Json.bool false, rest)
    | 'n' :: 'u' :: 'l' :: 'l' :: rest => some (Json.null, rest)
    | other => (parseIntToken other).map (fun p => (Json.num p.1, p.2))

def parseArrFirst : Nat → List Char → Option (JsonList × List Char)
  | 0, _ => none
  | fuel + 1, cs =>
    match skipWs cs with
    | ']' :: rest => some (.nil, rest)
    | other =>
      (parseVal fuel other).bind
        (fun p => (parseArrRest fuel p.2).map (fun q => (JsonList.cons p.1 q.1, q.2)))

def parseArrRest : Nat → List Char → Option (JsonList × List Char)
  | 0, _ => none
  | fuel + 1, cs =>
    match skipWs cs with
    | ']' :: rest => some (.nil, rest)
    | ',' :: rest =>
      (parseVal fuel rest).bind
        (fun p => (parseArrRest fuel p.2).map (fun q => (JsonList.cons p.1 q.1, q.2)))
    | _ => none

def parseObjFirst : Nat → List Char → Option (JsonObj × List Char)
  | 0, _ => none
  | fuel + 1, cs =>
    match skipWs cs with
    | '}' :: rest => some (.nil, rest)
    | other => parseObjPair fuel .nil other

def parseObjPair : Nat → JsonObj → List Char → Option (JsonObj × List Char)
  | 0, _, _ => none
  | fuel + 1, acc, cs =>
    match skipWs cs with
    | '"' :: rest =>
      (parseStrBody rest).bind (fun kp =>
        match skipWs kp.2 with
        | ':' :: rest2 =>
          (parseVal fuel rest2).bind
            (fun vp => parseObjRest fuel (acc.insert ⟨kp.1⟩ vp.1) vp.2)
        | _ => none)
    | _ => none

def parseObjRest : Nat → JsonObj → List Char → Option (JsonObj × List Char)
  | 0, _, _ => none
  | fuel + 1, acc, cs =>
    match skipWs cs with
    | '}' :: rest => some (acc, rest)
    | ',' :: rest => parseObjPair fuel acc rest
    | _ => none

end

/-- `json.loads`: parse one value, requiring the whole input (up to
trailing whitespace) to be consumed. -/
def json_loads (s : String) : Option Json :=
  match parseVal (2 * s.data.length + 2) s.data with
  | some (v, rest) => if (skipWs rest).isEmpty then some v else none
  | none => none

/-! ### `_safe_json_loads` (pipeline.py lines 40-52) -/

/-- Index of the last occurrence of `c` in `cs`, if any. -/
def lastIdxOf (c : Char) (cs : List Char) : Option Nat :=
  go cs 0 none
where
  go : List Char → Nat → Option Nat → Option Nat
    | [], _, best => best
    | x :: xs, i, best => go xs (i + 1) (if x = c then some i else best)

/-- Match of `re.search(r'(\x7b.*\x7d|\[.*\])', s, re.S)` as a span
`(start, stop)` (inclusive): the scan tries each start position from the
left; at a `\x7b` the greedy `.*` reaches to the last `\x7d` of the whole
input, at a `[` to the last `]`. -/
def regexSpanAux (braceClose brackClose : Option Nat) :
    List Char → Nat → Option (Nat × Nat)
  | [], _ => none
  | c :: rest, i =>
    if c = '{' then
      match braceClose with
      | some j =>
        if i < j then some (i, j) else regexSpanAux braceClose brackClose rest (i + 1)
      | none => regexSpanAux braceClose brackClose rest (i + 1)
    else if c = '[' then
      match brackClose with
      | some j =>
        if i < j then some (i, j) else regexSpanAux braceClose brackClose rest (i + 1)
      | none => regexSpanAux braceClose brackClose rest (i + 1)
    else regexSpanAux braceClose brackClose rest (i + 1)

/-- The first greedy `\x7b...\x7d` or `[...]` span of `s`, spanning
newlines, as found by the repair regex. -/
def regexSpan (s : String) : Option String :=
  match regexSpanAux (lastIdxOf '}' s.data) (lastIdxOf ']' s.data) s.data 0 with
  | some (i, j) => some ⟨(s.data.drop i).take (j - i + 1)⟩
  | none => none

/-- `_safe_json_loads`: strict parse first; on failure parse the first
greedy brace- or bracket-delimited span; `none` (Python `None`) if both
fail — never an exception. -/
def safe_json_loads (s : String) : Option Json :=
  match json_loads s with
  | some v => some v
  | none =>
    match regexSpan s with
    | some sub => json_loads sub
    | none => none


/-! ### Nodes, edges, metadata (pipeline.py data model) -/

/-- `_short_id(prefix)`: `prefix + "_" + uuid.uuid4().hex[:8]`, with the
uuid hex draw supplied by the oracle `uu` at draw index `k`. -/
def short_id (uu : Nat → String) (k : Nat) (pre : String) : String :=
  pre ++ "_" ++ ⟨(uu k).data.take 8⟩

/-- A node dict.  `label`, `summary` and the entries of `key_points` are
dynamic values exactly as the code stores them; `key_points` and
`ai_explanation` are `none` when the dict simply lacks that key (as in
the parse-failure fallback node). -/
structure Node where
  id : String
  label : Json
  level : Nat
  summary : Json
  key_points : Option Json
  ai_explanation : Option Json

structure Edge where
  source : String
  target : String
deriving DecidableEq

/-- The `meta` dict; a `none` field is an absent key. -/
structure MapMeta where
  error : Option String := none
  summary : Option String := none
  warning : Option String := none
  n_nodes : Option Nat := none
  quiz : Option Json := none
  summary_error : Option String := none
  tooltip_error : Option String := none
  keywords : Option (List String) := none

/-- The pipeline's return dict: always these three keys. -/
structure MindMap where
  nodes : List Node
  edges : List Edge
  meta : MapMeta

/-- Prompts sent to the model gateway, recorded structurally (the
template text is immaterial to the control flow; what matters is which
call, with which dynamic payload). -/
inductive Prompt where
  | chunkSummary (chunk : String)
  | rootName (text : String)
  | structureAsk (text : String)
  | structureRetry (text : String)
  | mapSummary (compactJson : String)
  | batchExplain (titles : List String)
deriving Repr, DecidableEq

/-! ### `build_graph_from_hierarchy` (pipeline.py lines 137-163)

The recursion descends into `item.get("subtopics", [])`, which is not a
structural subterm, so the executable definition carries explicit fuel;
`build_graph_from_hierarchy` supplies `jsizeL` of the input, which always
suffices (`build_fuel_sufficient` below), so the wrapper is total exactly
like the source. -/

def buildAux (uu : Nat → String) :
    Nat → JsonList → Option String → Nat → Nat →
    Except PyErr (List Node × List Edge × Nat)
  | _, .nil, _, _, c => .ok ([], [], c)
  | 0, .cons _ _, _, _, _ => .error .typeError
  | fuel + 1, .cons item rest, parentId, level, c =>
    match item with
    | .obj kvs =>
      let nodeId := short_id uu c ("n" ++ toString level)
      match pySlice (kvs.get "title" (.str "")) 140 with
      | .error e => .error e
      | .ok label =>
        match pySlice (kvs.get "summary" (.str "")) 400 with
        | .error e => .error e
        | .ok summary =>
          match pySlice (kvs.get "key_points" (.arr .nil)) 6 with
          | .error e => .error e
          | .ok keyPoints =>
            let node : Node :=
              { id := nodeId, label := label, level := level, summary := summary,
                key_points := some keyPoints, ai_explanation := none }
            let ownEdges : List Edge :=
              match parentId with
              | some p => [{ source := p, target := nodeId }]
              | none => []
            let subRes : Except PyErr (List Node × List Edge × Nat) :=
              match kvs.get "subtopics" (.arr .nil) with
              | .arr subs =>
                if subs.isEmpty then .ok ([], [], c + 1)
                else buildAux uu fuel subs (some nodeId) (level + 1) (c + 1)
              | _ => .ok ([], [], c + 1)
            match subRes with
            | .error e => .error e
            | .ok (subNodes, subEdges, c1) =>
              match buildAux uu fuel rest parentId level c1 with
              | .error e => .error e
              | .ok (restNodes, restEdges, c2) =>
                .ok (node :: (subNodes ++ restNodes),
                     ownEdges ++ (subEdges ++ restEdges), c2)
    | _ => .error .attributeError

/-- `build_graph_from_hierarchy(hierarchy, parent_id, level)` with the
accumulators threaded explicitly: returns the flat node list, the edge
list, and the next uuid draw index. -/
def build_graph_from_hierarchy (uu : Nat → String) (hierarchy : JsonList)
    (parentId : Option String) (level : Nat) (c : Nat) :
    Except PyErr (List Node × List Edge × Nat) :=
  buildAux uu hierarchy.jsizeL hierarchy parentId level c

/-! ### Well-formed outlines and the item count

`outlineWF` is the data model's OutlineItem shape (§3 of the spec): every
item is a dict whose `title` and `summary` are strings when present,
whose `key_points` is a list when present, and whose `subtopics` is a
list of well-formed items when present.  `countItems` is the total number
of items across all nesting depths. -/

def outlineWFAux : Nat → JsonList → Bool
  | _, .nil => true
  | 0, .cons _ _ => false
  | fuel + 1, .cons item rest =>
    (match item with
     | .obj kvs =>
       (match kvs.get "title" (.str "") with | .str _ => true | _ => false) &&
       (match kvs.get "summary" (.str "") with | .str _ => true | _ => false) &&
       (match kvs.get "key_points" (.arr .nil) with | .arr _ => true | _ => false) &&
       (match kvs.get "subtopics" (.arr .nil) with
        | .arr .nil => true
        | .arr subs => outlineWFAux fuel subs
        | _ => false)
     | _ => false) &&
    outlineWFAux fuel rest

def outlineWF (hierarchy : JsonList) : Bool := outlineWFAux hierarchy.jsizeL hierarchy

def countItemsAux : Nat → JsonList → Nat
  | _, .nil => 0
  | 0, .cons _ _ => 0
  | fuel + 1, .cons item rest =>
    (1 + match item with
         | .obj kvs =>
           match kvs.get "subtopics" (.arr .nil) with
           | .arr .nil => 0
           | .arr subs => countItemsAux fuel subs
           | _ => 0
         | _ => 0) +
    countItemsAux fuel rest

/-- Total number of outline items across all nesting depths. -/
def countItems (hierarchy : JsonList) : Nat := countItemsAux hierarchy.jsizeL hierarchy

/-! ### Pipeline stages (`process_text_to_mindmap`, pipeline.py 168-268) -/

/-- Map a fallible function over a list, propagating the first
exception. -/
def mapExcept (f : α → Except PyErr β) : List α → Except PyErr (List β)
  | [] => .ok []
  | x :: xs =>
    match f x with
    | .error e => .error e
    | .ok y => (mapExcept f xs).map (y :: ·)

/-- Python dict assignment on a string-keyed mapping held as an
association list: existing keys keep their position. -/
def dictInsertL : List (String × Json) → String → Json → List (String × Json)
  | [], k, v => [(k, v)]
  | (k0, v0) :: rest, k, v =>
    if k0 = k then (k0, v) :: rest else (k0, v0) :: dictInsertL rest k v

/-- Python `mapping.get(k, default)`. -/
def dictGetL (m : List (String × Json)) (k : String) (d : Json) : Json :=
  match m.find? (fun kv => kv.1 == k) with
  | some kv => kv.2
  | none => d

/-- Pre-summarization of oversized input (pipeline.py 181-188): fixed
size chunks, one gateway call per chunk, first line of each stripped
response, joined with newlines.  Returns the working text and the number
of gateway calls consumed. -/
def chunkListAux : Nat → Nat → List Char → List (List Char)
  | _, _, [] => []
  | 0, _, _ :: _ => []
  | fuel + 1, n, c :: cs => (c :: cs).take n :: chunkListAux fuel n ((c :: cs).drop n)

def chunkStage (gw : Nat → String) (text : String) (threshold : Nat) :
    Except PyErr (String × Nat) × List Prompt :=
  if threshold = 0 then (.error .valueError, [])
  else
    go ((chunkListAux text.data.length threshold text.data).map
          (fun cs => (⟨cs⟩ : String))) 0 [] []
where
  go : List String → Nat → List String → List Prompt →
      Except PyErr (String × Nat) × List Prompt
    | [], k, summaries, log => (.ok (pyJoin "\n" summaries, k), log)
    | ch :: rest, k, summaries, log =>
      let out := pyStrip (gw k)
      match pySplitlinesHead out with
      | .error e => (.error e, log ++ [Prompt.chunkSummary ch])
      | .ok line =>
        go rest (k + 1) (summaries ++ [pyStrip line]) (log ++ [Prompt.chunkSummary ch])

/-- The map-summary enrichment body (pipeline.py 219-223) applied to the
stripped gateway response: `ok none` when the repaired value is falsy,
`ok (summary, quiz)` on success, `error` on the exceptions the dynamic
accesses can raise. -/
def map_summary_parse (raw : String) : Except PyErr (Option (String × Json)) :=
  match safe_json_loads raw with
  | none => .ok none
  | some pm =>
    if pm.truthy then
      match pm with
      | .obj kvs =>
        match kvs.get "thesis" (.str "") with
        | .str thesis =>
          match pyJoinNl (kvs.get "bullets" (.arr .nil)) with
          | .error e => .error e
          | .ok bullets =>
            .ok (some (thesis ++ "\n\n" ++ bullets, kvs.get "quiz" (.arr .nil)))
        | _ => .error .typeError
      | _ => .error .attributeError
    else .ok none

/-- Set a node's `ai_explanation`. -/
def set_ai (v : Json) (n : Node) : Node := { n with ai_explanation := some v }

/-- Build the `title -> explanation` mapping from the repaired batch
response (pipeline.py 239-246): a list contributes `(i.get("title") or
"").strip()` keys (raising on non-dict items or unstrippable titles), a
dict contributes its stripped keys, anything else leaves the mapping
empty. -/
def explain_mapping (parsed : Option Json) : Except PyErr (List (String × Json)) :=
  match parsed with
  | some (.arr items) => goArr items []
  | some (.obj kvs) => .ok (goObj kvs [])
  | _ => .ok []
where
  goArr : JsonList → List (String × Json) → Except PyErr (List (String × Json))
    | .nil, m => .ok m
    | .cons i tl, m =>
      match i with
      | .obj kvs =>
        let t := kvs.get "title" .null
        match pyStripDyn (if t.truthy then t else .str "") with
        | .error e => .error e
        | .ok k =>
          let ev := kvs.get "explanation" .null
          goArr tl (dictInsertL m k (if ev.truthy then ev else .str ""))
      | _ => .error .attributeError
  goObj : JsonObj → List (String × Json) → List (String × Json)
    | .nil, m => m
    | .cons k v tl, m => goObj tl (dictInsertL m (pyStrip k) v)

/-- Per-node assignment loop (pipeline.py 248-250). -/
def assign_explanations (mapping : List (String × Json)) :
    List Node → Except PyErr (List Node)
  | [] => .ok []
  | n :: rest =>
    match pyStripDyn n.label with
    | .error e => .error e
    | .ok lbl =>
      (assign_explanations mapping rest).map
        (set_ai (dictGetL mapping lbl (.str "No explanation available.")) n :: ·)

/-- `titles` list comprehension (pipeline.py 229). -/
def collect_titles (nodes : List Node) : Except PyErr (List String) :=
  mapExcept (fun n => pyStripDyn n.label) nodes

/-- The batched-explanations enrichment stage (pipeline.py 227-257):
returns the updated nodes, the recorded `meta.tooltip_error` if the stage
failed, the next gateway index, and the prompts issued. -/
def explanations_stage (gw : Nat → String) (k : Nat) (nodes : List Node) :
    (List Node × Option String) × Nat × List Prompt :=
  match collect_titles nodes with
  | .error e =>
    ((nodes.map (set_ai (.str "Explanation unavailable.")), some e.msg), k, [])
  | .ok titles0 =>
    let titles := titles0.filter (fun t => t != "")
    if titles.isEmpty then
      ((nodes.map (set_ai (.str "No explanation available.")), none), k, [])
    else
      let parsed := safe_json_loads (pyStrip (gw k))
      match (explain_mapping parsed).bind (fun m => assign_explanations m nodes) with
      | .error e =>
        ((nodes.map (set_ai (.str "Explanation unavailable.")), some e.msg), k + 1,
         [Prompt.batchExplain titles])
      | .ok ns => ((ns, none), k + 1, [Prompt.batchExplain titles])

/-- Word counter in first-encounter order (`collections.Counter` keeps
dict insertion order). -/
def counterAdd : List (String × Nat) → String → List (String × Nat)
  | [], w => [(w, 1)]
  | (k, c) :: rest, w =>
    if k = w then (k, c + 1) :: rest else (k, c) :: counterAdd rest w

def counterList (ws : List String) : List (String × Nat) := ws.foldl counterAdd []

/-- Stable insert for descending counts: an element goes before the first
entry of strictly or equally small count, so earlier-counted words win
ties (`Counter.most_common` sorts by count descending with a stable
sort). -/
def insertByCount (x : String × Nat) : List (String × Nat) → List (String × Nat)
  | [] => [x]
  | y :: ys => if y.2 ≤ x.2 then x :: y :: ys else y :: insertByCount x ys

def sortByCountDesc : List (String × Nat) → List (String × Nat)
  | [] => []
  | x :: xs => insertByCount x (sortByCountDesc xs)

/-- The keyword-extraction try-body (pipeline.py 261-264): pool the
labels and summaries, split on whitespace, keep raw tokens longer than 3
characters, lowercase and strip the punctuation set from each kept token,
then take the 12 most frequent. -/
def keywords_body (nodes : List Node) : Except PyErr (List String) :=
  match mapExcept (fun n => pyAddStrings n.label n.summary) nodes with
  | .error e => .error e
  | .ok parts =>
    let pool := pyJoin " " parts
    let words := ((pySplitWs pool).filter (fun w => 3 < w.data.length)).map
      (fun w => pyStripChars ".,:;()[]" (pyLower w))
    .ok (((sortByCountDesc (counterList words)).take 12).map Prod.fst)

/-- The keyword-extraction stage with its exception handler
(pipeline.py 260-266). -/
def keywords_stage (nodes : List Node) : List String :=
  match keywords_body nodes with
  | .error _ => []
  | .ok l => l

/-- `process_text_to_mindmap(text, chunk_threshold_chars,
enable_map_summary)`.  Returns the result (or the Python exception that
escapes) together with the list of prompts issued to the gateway, in
order. -/
def process_text_to_mindmap (uu gw : Nat → String) (text0 : String)
    (chunkThreshold : Nat) (enableMapSummary : Bool) :
    Except PyErr MindMap × List Prompt :=
  let text := pyStrip text0
  if text = "" then
    (.ok ⟨[], [], { summary := some "", error := some "no_text" }⟩, [])
  else
    let chunkRes : Except PyErr (String × Nat) × List Prompt :=
      if chunkThreshold < text.data.length then chunkStage gw text chunkThreshold
      else (.ok (text, 0), [])
    match chunkRes with
    | (.error e, log) => (.error e, log)
    | (.ok (promptText, k0), log0) =>
      let log1 := log0 ++ [Prompt.rootName promptText]
      match pySplitlinesHead (pyStrip (gw k0)) with
      | .error e => (.error e, log1)
      | .ok line0 =>
        let rootTitle := pyStrip line0
        let log2 := log1 ++ [Prompt.structureAsk promptText]
        let s1 := safe_json_loads (pyStrip (gw (k0 + 1)))
        let retryNeeded : Bool :=
          match s1 with
          | some (.arr xs) => xs.isEmpty
          | _ => true
        let (structv, k1, log3) :=
          if retryNeeded then
            (safe_json_loads (pyStrip (gw (k0 + 2))), k0 + 3,
             log2 ++ [Prompt.structureRetry promptText])
          else (s1, k0 + 2, log2)
        let fallback : Except PyErr MindMap × List Prompt :=
          (.ok ⟨[{ id := short_id uu 0 "root",
                   label := .str (if rootTitle = "" then "Main Topic" else rootTitle),
                   level := 0, summary := .str ⟨text.data.take 320⟩,
                   key_points := none, ai_explanation := none }], [],
               { summary := some ⟨text.data.take 800⟩,
                 warning := some "parse_failed" }⟩, log3)
        match structv with
        | none => fallback
        | some sj =>
          if !sj.truthy then fallback
          else
            match pyIter sj with
            | .error e => (.error e, log3)
            | .ok items =>
              match build_graph_from_hierarchy uu items none 0 0 with
              | .error e => (.error e, log3)
              | .ok (nodes, edges, _) =>
                let meta0 : MapMeta := { n_nodes := some nodes.length }
                let sumRes : MapMeta × Nat × List Prompt :=
                  if enableMapSummary then
                    match pySlice sj 3 with
                    | .error e => ({ meta0 with summary_error := some e.msg }, k1, log3)
                    | .ok compactJ =>
                      match map_summary_parse (pyStrip (gw k1)) with
                      | .error e =>
                        ({ meta0 with summary_error := some e.msg }, k1 + 1,
                         log3 ++ [Prompt.mapSummary (json_string compactJ)])
                      | .ok none =>
                        (meta0, k1 + 1, log3 ++ [Prompt.mapSummary (json_string compactJ)])
                      | .ok (some sq) =>
                        ({ meta0 with summary := some sq.1, quiz := some sq.2 },
                         k1 + 1, log3 ++ [Prompt.mapSummary (json_string compactJ)])
                  else (meta0, k1, log3)
                match sumRes with
                | (meta1, k2, log5) =>
                  match explanations_stage gw k2 nodes with
                  | ((nodes2, toolErr), _, logE) =>
                    let meta2 : MapMeta :=
                      match toolErr with
                      | some m => { meta1 with tooltip_error := some m }
                      | none => meta1
                    (.ok ⟨nodes2, edges,
                          { meta2 with keywords := some (keywords_stage nodes2) }⟩,
                     log5 ++ logE)

/-! ### `generate_quiz_and_flashcards` (copilot.py 147-178)

`copilot.py` defines this function twice; the later definition (lines
147-178) shadows the earlier one and is the effective code: blank
summary short-circuits, otherwise one direct `model.generate_content`
call, a regex span extraction (no strict-parse attempt), `json.loads`,
and `flashcards`/`quiz` key extraction, with every exception caught.  The
single model call is modelled by `modelCall` (its `.error` case is any
exception from the call or the `.text` access); the second component of
the result counts the model calls made. -/
def generate_quiz_and_flashcards (modelCall : Except PyErr String)
    (summaryText : String) : (Json × Json) × Nat :=
  if pyStrip summaryText = "" then ((.arr .nil, .arr .nil), 0)
  else
    match modelCall with
    | .error _ => ((.arr .nil, .arr .nil), 1)
    | .ok respText =>
      match regexSpan respText with
      | none => ((.arr .nil, .arr .nil), 1)
      | some sub =>
        match json_loads sub with
        | none => ((.arr .nil, .arr .nil), 1)
        | some (.obj kvs) =>
          ((kvs.get "flashcards" (.arr .nil), kvs.get "quiz" (.arr .nil)), 1)
        | some _ => ((.arr .nil, .arr .nil), 1)

/-! ### Claim-side predicates and helpers -/

/-- The hierarchy-retry condition of pipeline.py line 201:
`not structure or not isinstance(structure, list)` on the repair-parse
result. -/
def needsRetry (o : Option Json) : Bool :=
  match o with
  | some (.arr xs) => xs.isEmpty
  | _ => true

/-- Python truthiness of an optional parse result (`None` is falsy), the
condition of pipeline.py line 205. -/
def truthyOpt (o : Option Json) : Bool :=
  match o with
  | some j => j.truthy
  | none => false

/-- Whether `k` occurs as a key of the object. -/
def JsonObj.memKey (k : String) : JsonObj → Bool
  | .nil => false
  | .cons k0 _ tl => k0 = k || tl.memKey k

/-- All keys of the object are distinct. -/
def JsonObj.keysFresh : JsonObj → Bool
  | .nil => true
  | .cons k _ tl => !tl.memKey k && tl.keysFresh

mutual

/-- Every object anywhere inside the value has distinct keys: the image
of Python's JSON-serializable values (a Python dict cannot repeat a
key). -/
def Json.noDupKeys : Json → Bool
  | .null => true
  | .bool _ => true
  | .num _ => true
  | .str _ => true
  | .arr xs => xs.noDupKeysL
  | .obj kvs => kvs.keysFresh && kvs.noDupKeysO

def JsonList.noDupKeysL : JsonList → Bool
  | .nil => true
  | .cons hd tl => hd.noDupKeys && tl.noDupKeysL

def JsonObj.noDupKeysO : JsonObj → Bool
  | .nil => true
  | .cons _ v tl => v.noDupKeys && tl.noDupKeysO

end

/-- First occurrences of the words, in order, skipping an initial set of
seen words. -/
def dedupFirstAux : List String → List String → List String
  | [], _ => []
  | w :: ws, seen =>
    if seen.contains w then dedupFirstAux ws seen
    else w :: dedupFirstAux ws (w :: seen)

def dedupFirst (ws : List String) : List String := dedupFirstAux ws []

/-- The keyword selection DESCRIBED by the claim, read literally: strip
and lowercase each whitespace-split token, keep the (stripped) tokens
longer than 3 characters, then take the 12 most frequent in descending
frequency with ties by first-encountered order. -/
def keywords_claim_literal (parts : List String) : List String :=
  let pool := pyJoin " " parts
  let words := ((pySplitWs pool).map
      (fun w => pyStripChars ".,:;()[]" (pyLower w))).filter
      (fun w => 3 < w.data.length)
  ((sortByCountDesc ((dedupFirst words).map (fun w => (w, words.count w)))).take 12).map
    Prod.fst

/-- The amended keyword selection: keep the RAW whitespace-split tokens
longer than 3 characters, then lowercase and strip each kept token, then
take the 12 most frequent in descending frequency with ties by
first-encountered order (frequencies and tie order expressed here
independently, via `count` over the token list and first occurrences). -/
def keywords_described (parts : List String) : List String :=
  let pool := pyJoin " " parts
  let words := ((pySplitWs pool).filter (fun w => 3 < w.data.length)).map
      (fun w => pyStripChars ".,:;()[]" (pyLower w))
  ((sortByCountDesc ((dedupFirst words).map (fun w => (w, words.count w)))).take 12).map
    Prod.fst

/-! ### Concrete example inputs (for counterexamples and witnesses) -/

/-- An outline item with just a title. -/
def leafItem (t : String) : Json :=
  .obj (.cons "title" (.str t) .nil)

/-- An outline item with a title and a single subtopic. -/
def parentItem (t : String) (sub : Json) : Json :=
  .obj (.cons "title" (.str t) (.cons "subtopics" (.arr (.cons sub .nil)) .nil))

/-- Two top-level items, no nesting (2 items in total). -/
def outlinePair : JsonList :=
  .cons (leafItem "Alpha") (.cons (leafItem "Beta") .nil)

/-- Two top-level items, each with one subtopic (4 items in total). -/
def outlineNested : JsonList :=
  .cons (parentItem "Alpha" (leafItem "Beta"))
    (.cons (parentItem "Gamma" (leafItem "Delta")) .nil)

/-- One top-level item with one subtopic (2 items in total). -/
def outlineSingle : JsonList :=
  .cons (parentItem "Alpha" (leafItem "Beta")) .nil

/-- A degenerate uuid oracle: every `uuid4().hex` draw returns the same
hex string, so every truncated `hex[:8]` prefix collides. -/
def uuConst : Nat → String := fun _ => "aaaaaaaabbbbbbbb"

/-- A uuid oracle whose first draws have pairwise-distinct `hex[:8]`
prefixes, as genuine uuid4 draws have with overwhelming probability. -/
def uuDistinct : Nat → String := fun k =>
  match k with
  | 0 => "aaaaaaaa11111111"
  | 1 => "bbbbbbbb22222222"
  | 2 => "cccccccc33333333"
  | 3 => "dddddddd44444444"
  | _ => "eeeeeeee55555555"

/-- The characters that may legally follow a serialized integer token
(so that the token scan stops): end of input, or a non-digit that is not
a decimal point or exponent marker. -/
def numStop : List Char → Bool
  | [] => true
  | c :: _ => !(c.isDigit || c = '.' || c = 'e' || c = 'E')

/-- Concatenation of two objects' field lists (no key merging). -/
def objCat : JsonObj → JsonObj → JsonObj
  | .nil, b => b
  | .cons k v tl, b => .cons k v (objCat tl b)

/-! ## Helper lemmas -/

theorem buildAux_nil (uu : Nat → String) (fuel : Nat) (parentId : Option String)
    (level c : Nat) : buildAux uu fuel .nil parentId level c = .ok ([], [], c) := by
  cases fuel <;> rfl

theorem buildAux_zero (uu : Nat → String) (item : Json) (rest : JsonList)
    (parentId : Option String) (level c : Nat) :
    buildAux uu 0 (.cons item rest) parentId level c = .error .typeError := rfl

theorem buildAux_cons (uu : Nat → String) (fuel : Nat) (item : Json) (rest : JsonList)
    (parentId : Option String) (level c : Nat) :
    buildAux uu (fuel + 1) (.cons item rest) parentId level c =
      (match item with
       | .obj kvs =>
         match pySlice (kvs.get "title" (.str "")) 140 with
         | .error e => .error e
         | .ok label =>
           match pySlice (kvs.get "summary" (.str "")) 400 with
           | .error e => .error e
           | .ok summary =>
             match pySlice (kvs.get "key_points" (.arr .nil)) 6 with
             | .error e => .error e
             | .ok keyPoints =>
               let nodeId := short_id uu c ("n" ++ toString level)
               let node : Node :=
                 { id := nodeId, label := label, level := level, summary := summary,
                   key_points := some keyPoints, ai_explanation := none }
               let ownEdges : List Edge :=
                 match parentId with
                 | some p => [{ source := p, target := nodeId }]
                 | none => []
               let subRes : Except PyErr (List Node × List Edge × Nat) :=
                 match kvs.get "subtopics" (.arr .nil) with
                 | .arr subs =>
                   if subs.isEmpty then .ok ([], [], c + 1)
                   else buildAux uu fuel subs (some nodeId) (level + 1) (c + 1)
                 | _ => .ok ([], [], c + 1)
               match subRes with
               | .error e => .error e
               | .ok (subNodes, subEdges, c1) =>
                 match buildAux uu fuel rest parentId level c1 with
                 | .error e => .error e
                 | .ok (restNodes, restEdges, c2) =>
                   .ok (node :: (subNodes ++ restNodes),
                        ownEdges ++ (subEdges ++ restEdges), c2)
       | _ => .error .attributeError) := rfl

theorem buildAux_node_fields (uu : Nat → String) :
    ∀ (fuel : Nat) (items : JsonList) (parent : Option String) (level c : Nat)
      (ns : List Node) (es : List Edge) (c2 : Nat),
      buildAux uu fuel items parent level c = .ok (ns, es, c2) →
      ∀ n ∈ ns, (∃ kp, n.key_points = some kp) ∧ n.ai_explanation = none := by
  intro fuel
  induction fuel with
  | zero =>
    intro items parent level c ns es c2 h n hn
    cases items with
    | nil =>
      rw [buildAux_nil] at h
      injection h with h
      injection h with h1 h
      subst h1; simp at hn
    | cons hd tl =>
      rw [buildAux_zero] at h
      exact Except.noConfusion h
  | succ fuel ih =>
    intro items parent level c ns es c2 h n hn
    cases items with
    | nil =>
      rw [buildAux_nil] at h
      injection h with h
      injection h with h1 h
      subst h1; simp at hn
    | cons item rest =>
      rw [buildAux_cons] at h
      rcases item with _ | b | nn | ss | xs | kvs <;> dsimp only at h <;>
        try exact Except.noConfusion h
      rcases h1 : pySlice (kvs.get "title" (.str "")) 140 with e | label <;> rw [h1] at h
      · exact Except.noConfusion h
      rcases h2 : pySlice (kvs.get "summary" (.str "")) 400 with e | summ <;> rw [h2] at h
      · exact Except.noConfusion h
      rcases h3 : pySlice (kvs.get "key_points" (.arr .nil)) 6 with e | kp <;> rw [h3] at h
      · exact Except.noConfusion h
      dsimp only at h
      rcases hsub : kvs.get "subtopics" (.arr .nil) with _ | b2 | n2 | s2 | subs | kv2 <;>
        rw [hsub] at h <;> try dsimp only at h <;>
        first
        | ( -- non-arr subtopics: no recursion into subtopics
           rcases hrest : buildAux uu fuel rest parent level (c + 1) with e | ⟨rN, rE, cB⟩ <;>
             rw [hrest] at h <;> try dsimp only at h
           · exact Except.noConfusion h
           · injection h with h
             injection h with hns h
             subst hns
             rcases List.mem_cons.mp hn with rfl | hmem
             · exact ⟨⟨kp, rfl⟩, rfl⟩
             · rcases List.mem_append.mp hmem with hs | hr
               · simp at hs
               · exact ih _ _ _ _ _ _ _ hrest n hr)
        | ( -- arr subtopics
           by_cases hemp : subs.isEmpty <;> [rw [if_pos hemp] at h; rw [if_neg hemp] at h] <;>
             try dsimp only at h
           · rcases hrest : buildAux uu fuel rest parent level (c + 1) with e | ⟨rN, rE, cB⟩ <;>
               rw [hrest] at h <;> try dsimp only at h
             · exact Except.noConfusion h
             · injection h with h
               injection h with hns h
               subst hns
               rcases List.mem_cons.mp hn with rfl | hmem
               · exact ⟨⟨kp, rfl⟩, rfl⟩
               · rcases List.mem_append.mp hmem with hs | hr
                 · simp at hs
                 · exact ih _ _ _ _ _ _ _ hrest n hr
           · rcases hsubcall : buildAux uu fuel subs
                 (some (short_id uu c ("n" ++ toString level))) (level + 1) (c + 1) with
                 e | ⟨sN, sE, cA⟩ <;> rw [hsubcall] at h <;> try dsimp only at h
             · exact Except.noConfusion h
             · rcases hrest : buildAux uu fuel rest parent level cA with e | ⟨rN, rE, cB⟩ <;>
                 rw [hrest] at h <;> try dsimp only at h
               · exact Except.noConfusion h
               · injection h with h
                 injection h with hns h
                 subst hns
                 rcases List.mem_cons.mp hn with rfl | hmem
                 · exact ⟨⟨kp, rfl⟩, rfl⟩
                 · rcases List.mem_append.mp hmem with hs | hr
                   · exact ih _ _ _ _ _ _ _ hsubcall n hs
                   · exact ih _ _ _ _ _ _ _ hrest n hr)

/-- A full symbolic run of the parse-failure fallback path: blank-free
input of moderate size, a root-title response with a first line, a
structuring response that does not repair to a non-empty list, and a
retried response that repairs to a falsy value. -/
theorem pipeline_fallback_run
    (uu gw : Nat → String) (text : String) (line : String)
    (hstrip : pyStrip text = text) (hne : text ≠ "")
    (hlen : text.data.length ≤ 18000)
    (hroot : pySplitlinesHead (pyStrip (gw 0)) = .ok line)
    (hretry : needsRetry (safe_json_loads (pyStrip (gw 1))) = true)
    (hfail : truthyOpt (safe_json_loads (pyStrip (gw 2))) = false) :
    process_text_to_mindmap uu gw text 18000 true =
      (.ok ⟨[{ id := short_id uu 0 "root",
               label := .str (if pyStrip line = "" then "Main Topic" else pyStrip line),
               level := 0, summary := .str ⟨text.data.take 320⟩,
               key_points := none, ai_explanation := none }], [],
           { summary := some ⟨text.data.take 800⟩, warning := some "parse_failed" }⟩,
       [Prompt.rootName text, Prompt.structureAsk text, Prompt.structureRetry text]) := by
  have hchunk : ¬ (18000 < text.data.length) := by omega
  unfold process_text_to_mindmap
  rw [hstrip, if_neg hne, if_neg hchunk]
  dsimp only
  rw [hroot]
  dsimp only
  simp only [Nat.zero_add]
  rcases hs2 : safe_json_loads (pyStrip (gw 2)) with _ | j2
  · rcases hs1 : safe_json_loads (pyStrip (gw 1)) with _ | j1
    · simp
    · rw [hs1] at hretry
      rcases j1 with _ | b | n | s | xs | kvs <;>
        simp only [needsRetry] at hretry <;>
        simp [hretry]
  · rw [hs2] at hfail
    simp only [truthyOpt] at hfail
    rcases hs1 : safe_json_loads (pyStrip (gw 1)) with _ | j1
    · simp [hfail]
    · rw [hs1] at hretry
      rcases j1 with _ | b | n | s | xs | kvs <;>
        simp only [needsRetry] at hretry <;>
        simp [hretry, hfail]

/-- A full symbolic run of the normal path: the structuring response
repairs to a non-empty list on the first attempt and the graph builds;
the enrichment stages are left symbolic. -/
theorem pipeline_normal_run
    (uu gw : Nat → String) (text line : String) (x0 : Json) (xs0 : JsonList)
    (nodes : List Node) (edges : List Edge) (c' : Nat)
    (hstrip : pyStrip text = text) (hne : text ≠ "")
    (hlen : text.data.length ≤ 18000)
    (hroot : pySplitlinesHead (pyStrip (gw 0)) = .ok line)
    (hs1 : safe_json_loads (pyStrip (gw 1)) = some (.arr (.cons x0 xs0)))
    (hbuild : build_graph_from_hierarchy uu (.cons x0 xs0) none 0 0 = .ok (nodes, edges, c')) :
    process_text_to_mindmap uu gw text 18000 true =
      (let meta0 : MapMeta := { n_nodes := some nodes.length }
       let sumP : List Prompt :=
         [Prompt.mapSummary (json_string (.arr (JsonList.take 3 (.cons x0 xs0))))]
       let sum1 : MapMeta × List Prompt :=
         match map_summary_parse (pyStrip (gw 2)) with
         | .error e => ({ meta0 with summary_error := some e.msg }, sumP)
         | .ok none => (meta0, sumP)
         | .ok (some sq) =>
           ({ meta0 with summary := some sq.1, quiz := some sq.2 }, sumP)
       let ex := explanations_stage gw 3 nodes
       let meta2 : MapMeta :=
         match ex.1.2 with
         | some msg => { sum1.1 with tooltip_error := some msg }
         | none => sum1.1
       (.ok ⟨ex.1.1, edges, { meta2 with keywords := some (keywords_stage ex.1.1) }⟩,
        [Prompt.rootName text, Prompt.structureAsk text] ++ sum1.2 ++ ex.2.2)) := by
  have hchunk : ¬ (18000 < text.data.length) := by omega
  unfold process_text_to_mindmap
  rw [hstrip, if_neg hne, if_neg hchunk]
  dsimp only
  rw [hroot]
  dsimp only
  simp only [Nat.zero_add]
  rw [hs1]
  dsimp only [needsRetry, JsonList.isEmpty, Json.truthy, pyIter]
  rw [if_neg Bool.false_ne_true]
  dsimp only
  rw [hbuild]
  dsimp only [pySlice]
  rcases hms : map_summary_parse (pyStrip (gw 2)) with e | o
  · rcases hex : explanations_stage gw 3 nodes with ⟨⟨ns2, te⟩, k3, logE⟩
    rcases te with _ | msg <;> simp [hex]
  · rcases o with _ | sq <;>
    · rcases hex : explanations_stage gw 3 nodes with ⟨⟨ns2, te⟩, k3, logE⟩
      rcases te with _ | msg <;> simp [hex]

/-- Every node an `assign_explanations` run returns is an input node with
its `ai_explanation` set. -/
theorem assign_explanations_mem (m : List (String × Json)) :
    ∀ (ns ns2 : List Node), assign_explanations m ns = .ok ns2 →
      ∀ n2 ∈ ns2, ∃ n ∈ ns, ∃ v, n2 = set_ai v n := by
  intro ns
  induction ns with
  | nil =>
    intro ns2 h n2 hn2
    simp [assign_explanations] at h
    subst h; simp at hn2
  | cons n rest ih =>
    intro ns2 h n2 hn2
    rw [assign_explanations] at h
    rcases hl : pyStripDyn n.label with e | lbl <;> rw [hl] at h <;>
      dsimp only [Except.map] at h
    · exact Except.noConfusion h
    · rcases hr : assign_explanations m rest with e | ns2' <;> rw [hr] at h <;>
        dsimp only [Except.map] at h
      · exact Except.noConfusion h
      · injection h with h
        subst h
        rcases List.mem_cons.mp hn2 with h0 | hmem
        · exact ⟨n, by simp, _, h0⟩
        · rcases ih ns2' hr n2 hmem with ⟨n', hn', v, hv⟩
          exact ⟨n', by simp [hn'], v, hv⟩

/-- Every node the explanations stage returns is an input node with its
`ai_explanation` set to something. -/
theorem explanations_stage_mem (gw : Nat → String) (k : Nat) (ns : List Node) :
    ∀ n2 ∈ (explanations_stage gw k ns).1.1, ∃ n ∈ ns, ∃ v, n2 = set_ai v n := by
  intro n2 hn2
  unfold explanations_stage at hn2
  rcases hc : collect_titles ns with e | ts <;> rw [hc] at hn2
  · dsimp only at hn2
    rcases List.mem_map.mp hn2 with ⟨n, hn, hval⟩
    exact ⟨n, hn, _, hval.symm⟩
  · dsimp only at hn2
    by_cases hemp : (ts.filter (fun t => t != "")).isEmpty
    · rw [if_pos hemp] at hn2
      rcases List.mem_map.mp hn2 with ⟨n, hn, hval⟩
      exact ⟨n, hn, _, hval.symm⟩
    · rw [if_neg hemp] at hn2
      rcases hb : (explain_mapping (safe_json_loads (pyStrip (gw k)))).bind
          (fun m => assign_explanations m ns) with e | ns2 <;> rw [hb] at hn2
      · rcases List.mem_map.mp hn2 with ⟨n, hn, hval⟩
        exact ⟨n, hn, _, hval.symm⟩
      · rcases hm : explain_mapping (safe_json_loads (pyStrip (gw k))) with e | m <;>
          rw [hm] at hb
        · dsimp only [Except.bind] at hb
          exact Except.noConfusion hb
        · dsimp only [Except.bind] at hb
          exact assign_explanations_mem m ns ns2 hb n2 hn2

/-! ## Claim theorems -/


/-- C1: the claim says `process_text_to_mindmap` never raises for any
gateway behavior, including empty responses.  The code contradicts this:
when the root-title call yields a blank response, `_call_gemini` returns
the empty string and `"".splitlines()[0]` at pipeline.py:194 raises
`IndexError`, which escapes to the caller.  This theorem evaluates the
pipeline at that failing input. -/
theorem pipeline_raises_on_blank_root_response :
    process_text_to_mindmap (fun _ => "aaaaaaaabbbb") (fun _ => "") "hello" 18000 true =
      (.error .indexError, [Prompt.rootName "hello"]) := by rfl

/-- C2 counterexample: with a structuring response repairing to `5` (not
a sequence, so the retry fires) and a retry response repairing to the
truthy non-sequence `\x7b"a":1\x7d`, the pipeline does not return the
single-node fallback the claim promises: it proceeds past the falsiness
check at pipeline.py:205 and `build_graph_from_hierarchy` raises
`AttributeError` iterating the dict's keys. -/
theorem hierarchy_retry_truthy_nonlist_escapes :
    process_text_to_mindmap (fun _ => "aaaaaaaabbbb")
        (fun k => if k = 0 then "T" else if k = 1 then "5" else "\x7b\"a\":1\x7d")
        "hi" 18000 true =
      (.error .attributeError,
       [Prompt.rootName "hi", Prompt.structureAsk "hi", Prompt.structureRetry "hi"]) ∧
    ∀ m : MindMap,
      (process_text_to_mindmap (fun _ => "aaaaaaaabbbb")
        (fun k => if k = 0 then "T" else if k = 1 then "5" else "\x7b\"a\":1\x7d")
        "hi" 18000 true).1 ≠ .ok m := by
  refine ⟨rfl, ?_⟩
  intro m h
  exact Except.noConfusion h

/-- C2 (amended): when the hierarchy response does not repair-parse to a
non-empty sequence, the pipeline issues exactly one retry (the prompt
trace is root title, structuring ask, structuring retry and nothing
else); if the retried result repair-parses to a falsy value (parse
failure or an empty/falsy value — a truthy non-sequence instead escapes,
see the counterexample), it returns exactly one node labeled with the
root title (or "Main Topic" if that title is empty), zero edges,
`meta.warning = "parse_failed"` and `meta.summary` equal to the first
800 characters of the (whitespace-stripped) input. -/
theorem hierarchy_fallback_after_failed_retry
    (uu gw : Nat → String) (text : String) (line : String)
    (hstrip : pyStrip text = text) (hne : text ≠ "")
    (hlen : text.data.length ≤ 18000)
    (hroot : pySplitlinesHead (pyStrip (gw 0)) = .ok line)
    (hretry : needsRetry (safe_json_loads (pyStrip (gw 1))) = true)
    (hfail : truthyOpt (safe_json_loads (pyStrip (gw 2))) = false) :
    process_text_to_mindmap uu gw text 18000 true =
      (.ok ⟨[{ id := short_id uu 0 "root",
               label := .str (if pyStrip line = "" then "Main Topic" else pyStrip line),
               level := 0, summary := .str ⟨text.data.take 320⟩,
               key_points := none, ai_explanation := none }], [],
           { summary := some ⟨text.data.take 800⟩, warning := some "parse_failed" }⟩,
       [Prompt.rootName text, Prompt.structureAsk text, Prompt.structureRetry text]) :=
  pipeline_fallback_run uu gw text line hstrip hne hlen hroot hretry hfail

/-- C2 witness: the fallback theorem applied to a concrete run whose
structuring and retry responses are junk text. -/
theorem hierarchy_fallback_after_failed_retry_witness :
    process_text_to_mindmap (fun _ => "aaaaaaaabbbb")
        (fun k => if k = 0 then "Title" else "junk") "hi" 18000 true =
      (.ok ⟨[{ id := "root_aaaaaaaa", label := .str "Title", level := 0,
               summary := .str "hi", key_points := none, ai_explanation := none }], [],
           { summary := some "hi", warning := some "parse_failed" }⟩,
       [Prompt.rootName "hi", Prompt.structureAsk "hi", Prompt.structureRetry "hi"]) := by
  have h := hierarchy_fallback_after_failed_retry (fun _ => "aaaaaaaabbbb")
      (fun k => if k = 0 then "Title" else "junk") "hi" "Title"
      (by rfl) (by decide) (by decide) (by rfl) (by rfl) (by rfl)
  exact h

/-- C7: on a normal run where the summary stage succeeds and the
batched-explanation stage fails (its repaired response makes the mapping
build raise), the pipeline still returns a populated `meta.summary`,
every node's `ai_explanation` equals "Explanation unavailable.", the
failure is recorded under `meta.tooltip_error`, and the keyword stage
still runs — one enrichment stage's failure never aborts the others. -/
theorem explanation_failure_keeps_summary
    (uu gw : Nat → String) (text line : String) (x0 : Json) (xs0 : JsonList)
    (nodes : List Node) (edges : List Edge) (c' : Nat)
    (s : String) (q : Json) (e : PyErr) (ts : List String)
    (hstrip : pyStrip text = text) (hne : text ≠ "")
    (hlen : text.data.length ≤ 18000)
    (hroot : pySplitlinesHead (pyStrip (gw 0)) = .ok line)
    (hs1 : safe_json_loads (pyStrip (gw 1)) = some (.arr (.cons x0 xs0)))
    (hbuild : build_graph_from_hierarchy uu (.cons x0 xs0) none 0 0 = .ok (nodes, edges, c'))
    (hsum : map_summary_parse (pyStrip (gw 2)) = .ok (some (s, q)))
    (htitles : collect_titles nodes = .ok ts)
    (hts : (ts.filter (fun t => t != "")).isEmpty = false)
    (hbody : (explain_mapping (safe_json_loads (pyStrip (gw 3)))).bind
        (fun m => assign_explanations m nodes) = .error e) :
    ∃ m tr, process_text_to_mindmap uu gw text 18000 true = (.ok m, tr) ∧
      m.meta.summary = some s ∧
      m.meta.tooltip_error = some e.msg ∧
      (∀ n ∈ m.nodes, n.ai_explanation = some (.str "Explanation unavailable.")) ∧
      m.meta.keywords.isSome := by
  have hex : explanations_stage gw 3 nodes =
      ((nodes.map (set_ai (.str "Explanation unavailable.")), some e.msg), 4,
       [Prompt.batchExplain (ts.filter (fun t => t != ""))]) := by
    unfold explanations_stage
    rw [htitles]
    dsimp only
    rw [if_neg (by simp [hts]), hbody]
  have h := pipeline_normal_run uu gw text line x0 xs0 nodes edges c'
    hstrip hne hlen hroot hs1 hbuild
  rw [hsum, hex] at h
  dsimp only at h
  refine ⟨_, _, h, rfl, rfl, ?_, rfl⟩
  intro n hn
  rcases List.mem_map.mp hn with ⟨n0, _, hval⟩
  rw [← hval]
  rfl

/-- C9: `generate_quiz_and_flashcards` returns two empty sequences with
no model call when the summary is empty or whitespace-only; otherwise it
makes exactly one model call with no retry, extracts the `flashcards`
and `quiz` keys (defaulting each to an empty sequence when absent), and
returns two empty sequences on any exception (call failure, no regex
match, parse failure, or a non-dict parse). -/
theorem companion_generator_contract (mc : Except PyErr String) (s : String) :
    (pyStrip s = "" → generate_quiz_and_flashcards mc s = ((.arr .nil, .arr .nil), 0)) ∧
    (pyStrip s ≠ "" →
      (generate_quiz_and_flashcards mc s).2 = 1 ∧
      (∀ e, mc = .error e →
        (generate_quiz_and_flashcards mc s).1 = (.arr .nil, .arr .nil)) ∧
      (∀ t, mc = .ok t → (regexSpan t).bind json_loads = none →
        (generate_quiz_and_flashcards mc s).1 = (.arr .nil, .arr .nil)) ∧
      (∀ t j, mc = .ok t → (regexSpan t).bind json_loads = some j →
        (∀ kvs, j ≠ .obj kvs) →
        (generate_quiz_and_flashcards mc s).1 = (.arr .nil, .arr .nil)) ∧
      (∀ t kvs, mc = .ok t → (regexSpan t).bind json_loads = some (.obj kvs) →
        (generate_quiz_and_flashcards mc s).1 =
          (kvs.get "flashcards" (.arr .nil), kvs.get "quiz" (.arr .nil)))) := by
  unfold generate_quiz_and_flashcards
  by_cases hb : pyStrip s = ""
  · rw [if_pos hb]
    exact ⟨fun _ => rfl, fun hc => absurd hb hc⟩
  · rw [if_neg hb]
    refine ⟨fun hc => absurd hc hb, fun _ => ?_⟩
    rcases mc with e | t
    · exact ⟨rfl, fun _ _ => rfl, by simp, by simp, by simp⟩
    · dsimp only
      refine ⟨?_, by simp, ?_, ?_, ?_⟩
      · rcases regexSpan t with _ | sub
        · rfl
        · dsimp only
          rcases json_loads sub with _ | j
          · rfl
          · rcases j <;> rfl
      · intro t' ht' hbind
        injection ht' with ht'
        subst ht'
        rcases hr : regexSpan t with _ | sub
        · rfl
        · rw [hr] at hbind
          simp only [Option.some_bind] at hbind
          dsimp only
          rw [hbind]
      · intro t' j ht' hbind hnotobj
        injection ht' with ht'
        subst ht'
        rcases hr : regexSpan t with _ | sub
        all_goals simp only [hr, Option.none_bind, Option.some_bind] at hbind
        · exact Option.noConfusion hbind
        · try dsimp only
          rw [hbind]
          rcases j <;> first | rfl | exact absurd rfl (hnotobj _)
      · intro t' kvs ht' hbind
        injection ht' with ht'
        subst ht'
        rcases hr : regexSpan t with _ | sub
        all_goals simp only [hr, Option.none_bind, Option.some_bind] at hbind
        · exact Option.noConfusion hbind
        · try dsimp only
          rw [hbind]

/-- C10: in the parse-failure fallback path the single returned node's
own `summary` is the first 320 characters of the (stripped) input —
distinct from `meta.summary`'s 800-character truncation — and that node
carries no `key_points` and no `ai_explanation` key; whereas on the
normal path every node carries both keys. -/
theorem fallback_node_shape_vs_normal_path :
    (∀ (uu gw : Nat → String) (text line : String),
      pyStrip text = text → text ≠ "" → text.data.length ≤ 18000 →
      pySplitlinesHead (pyStrip (gw 0)) = .ok line →
      needsRetry (safe_json_loads (pyStrip (gw 1))) = true →
      truthyOpt (safe_json_loads (pyStrip (gw 2))) = false →
      ∃ n tr meta, process_text_to_mindmap uu gw text 18000 true =
          (.ok ⟨[n], [], meta⟩, tr) ∧
        n.summary = .str ⟨text.data.take 320⟩ ∧ n.key_points = none ∧
        n.ai_explanation = none ∧ meta.summary = some ⟨text.data.take 800⟩) ∧
    (∀ (uu gw : Nat → String) (text line : String) (x0 : Json) (xs0 : JsonList)
       (nodes : List Node) (edges : List Edge) (c' : Nat) (m : MindMap)
       (tr : List Prompt),
      pyStrip text = text → text ≠ "" → text.data.length ≤ 18000 →
      pySplitlinesHead (pyStrip (gw 0)) = .ok line →
      safe_json_loads (pyStrip (gw 1)) = some (.arr (.cons x0 xs0)) →
      build_graph_from_hierarchy uu (.cons x0 xs0) none 0 0 = .ok (nodes, edges, c') →
      process_text_to_mindmap uu gw text 18000 true = (.ok m, tr) →
      ∀ n ∈ m.nodes, n.key_points ≠ none ∧ n.ai_explanation ≠ none) := by
  constructor
  · intro uu gw text line hstrip hne hlen hroot hretry hfail
    exact ⟨_, _, _, pipeline_fallback_run uu gw text line hstrip hne hlen hroot hretry hfail,
      rfl, rfl, rfl, rfl⟩
  · intro uu gw text line x0 xs0 nodes edges c' m tr
      hstrip hne hlen hroot hs1 hbuild hproc n hn
    have h := pipeline_normal_run uu gw text line x0 xs0 nodes edges c'
      hstrip hne hlen hroot hs1 hbuild
    rw [h] at hproc
    have hnodes : m.nodes = (explanations_stage gw 3 nodes).1.1 := by
      rcases hms : map_summary_parse (pyStrip (gw 2)) with e | o
      · rw [hms] at hproc
        dsimp only at hproc
        injection hproc with h1 h2
        injection h1 with h1
        rw [← h1]
      · rcases o with _ | sq <;> rw [hms] at hproc <;> dsimp only at hproc <;>
          [skip; skip] <;>
        · injection hproc with h1 h2
          injection h1 with h1
          rw [← h1]
    rw [hnodes] at hn
    rcases explanations_stage_mem gw 3 nodes n hn with ⟨src, hsrc, v, hval⟩
    subst hval
    have hkey : ∃ kp, src.key_points = some kp := by
      unfold build_graph_from_hierarchy at hbuild
      exact (buildAux_node_fields uu _ _ _ _ _ _ _ _ hbuild src hsrc).1
    rcases hkey with ⟨kp, hkp⟩
    exact ⟨by simp [set_ai, hkp], by simp [set_ai]⟩

/-- C7 witness: a concrete run in which the summary stage succeeds and
the batched-explanation response repairs to `[5]`, whose non-dict item
makes the stage fail. -/
theorem explanation_failure_keeps_summary_witness :
    ∃ m tr, process_text_to_mindmap (fun _ => "aaaaaaaabbbb")
        (fun k => if k = 0 then "T"
          else if k = 1 then "[\x7b\"title\":\"A\"\x7d]"
          else if k = 2 then "\x7b\"thesis\":\"t\",\"bullets\":[\"b\"]\x7d"
          else "[5]") "hi" 18000 true = (.ok m, tr) ∧
      m.meta.summary = some "t\n\nb" ∧
      m.meta.tooltip_error = some "AttributeError" ∧
      (∀ n ∈ m.nodes, n.ai_explanation = some (.str "Explanation unavailable.")) ∧
      m.meta.keywords.isSome :=
  explanation_failure_keeps_summary (fun _ => "aaaaaaaabbbb")
    (fun k => if k = 0 then "T"
      else if k = 1 then "[\x7b\"title\":\"A\"\x7d]"
      else if k = 2 then "\x7b\"thesis\":\"t\",\"bullets\":[\"b\"]\x7d"
      else "[5]") "hi" "T"
    (.obj (.cons "title" (.str "A") .nil)) .nil
    [{ id := "n0_aaaaaaaa", label := .str "A", level := 0, summary := .str "",
       key_points := some (.arr .nil), ai_explanation := none }] [] 1
    "t\n\nb" (.arr .nil) .attributeError ["A"]
    rfl (by decide) (by decide) rfl rfl rfl rfl rfl rfl rfl

/-- C9 witness: the contract applied to a run whose response wraps a
flashcards/quiz object in prose, and to a whitespace-only summary. -/
theorem companion_generator_contract_witness :
    generate_quiz_and_flashcards
        (.ok "x \x7b\"flashcards\": [1], \"quiz\": [2]\x7d y") "hi" =
      ((.arr (.cons (.num 1) .nil), .arr (.cons (.num 2) .nil)), 1) ∧
    generate_quiz_and_flashcards (.error .valueError) "  " =
      ((.arr .nil, .arr .nil), 0) := by
  constructor
  · have h := companion_generator_contract
      (.ok "x \x7b\"flashcards\": [1], \"quiz\": [2]\x7d y") "hi"
    have h2 := h.2 (by decide)
    have hobj := h2.2.2.2.2 "x \x7b\"flashcards\": [1], \"quiz\": [2]\x7d y"
      (.cons "flashcards" (.arr (.cons (.num 1) .nil))
        (.cons "quiz" (.arr (.cons (.num 2) .nil)) .nil)) rfl (by rfl)
    exact Prod.ext hobj h2.1
  · exact (companion_generator_contract (.error .valueError) "  ").1 rfl

/-- C10 witness: the fallback/normal contrast applied to a concrete
fallback run and a concrete normal run. -/
theorem fallback_node_shape_vs_normal_path_witness :
    (∃ n tr meta,
      process_text_to_mindmap (fun _ => "aaaaaaaabbbb")
          (fun k => if k = 0 then "T" else "junk") "hi" 18000 true =
        (.ok ⟨[n], [], meta⟩, tr) ∧
      n.summary = .str "hi" ∧ n.key_points = none ∧ n.ai_explanation = none ∧
      meta.summary = some "hi") ∧
    (({ id := "n0_aaaaaaaa", label := .str "A", level := 0, summary := .str "",
        key_points := some (.arr .nil),
        ai_explanation := some (.str "E") } : Node).key_points ≠ none ∧
     ({ id := "n0_aaaaaaaa", label := .str "A", level := 0, summary := .str "",
        key_points := some (.arr .nil),
        ai_explanation := some (.str "E") } : Node).ai_explanation ≠ none) := by
  constructor
  · exact fallback_node_shape_vs_normal_path.1 (fun _ => "aaaaaaaabbbb")
      (fun k => if k = 0 then "T" else "junk") "hi" "T"
      rfl (by decide) (by decide) rfl rfl rfl
  · exact fallback_node_shape_vs_normal_path.2 (fun _ => "aaaaaaaabbbb")
      (fun k => if k = 0 then "T"
        else if k = 1 then "[\x7b\"title\":\"A\"\x7d]"
        else if k = 2 then "\x7b\"thesis\":\"t\",\"bullets\":[\"b\"]\x7d"
        else "[\x7b\"title\":\"A\",\"explanation\":\"E\"\x7d]") "hi" "T"
      (.obj (.cons "title" (.str "A") .nil)) .nil
      [{ id := "n0_aaaaaaaa", label := .str "A", level := 0, summary := .str "",
         key_points := some (.arr .nil), ai_explanation := none }] [] 1
      ⟨[{ id := "n0_aaaaaaaa", label := .str "A", level := 0, summary := .str "",
          key_points := some (.arr .nil), ai_explanation := some (.str "E") }], [],
        { summary := some "t\n\nb", n_nodes := some 1, quiz := some (.arr .nil),
          keywords := some [] }⟩
      [Prompt.rootName "hi", Prompt.structureAsk "hi",
       Prompt.mapSummary "[\x7b\"title\": \"A\"\x7d]", Prompt.batchExplain ["A"]]
      rfl (by decide) (by decide) rfl rfl rfl rfl _ (List.mem_singleton.mpr rfl)

theorem outlineWFAux_nil (fuel : Nat) : outlineWFAux fuel .nil = true := by
  cases fuel <;> rfl

theorem outlineWFAux_zero (item : Json) (rest : JsonList) :
    outlineWFAux 0 (.cons item rest) = false := rfl

theorem outlineWFAux_cons (fuel : Nat) (item : Json) (rest : JsonList) :
    outlineWFAux (fuel + 1) (.cons item rest) =
      ((match item with
        | .obj kvs =>
          (match kvs.get "title" (.str "") with | .str _ => true | _ => false) &&
          (match kvs.get "summary" (.str "") with | .str _ => true | _ => false) &&
          (match kvs.get "key_points" (.arr .nil) with | .arr _ => true | _ => false) &&
          (match kvs.get "subtopics" (.arr .nil) with
           | .arr .nil => true
           | .arr subs => outlineWFAux fuel subs
           | _ => false)
        | _ => false) &&
       outlineWFAux fuel rest) := rfl

theorem countItemsAux_nil (fuel : Nat) : countItemsAux fuel .nil = 0 := by
  cases fuel <;> rfl

theorem countItemsAux_cons (fuel : Nat) (item : Json) (rest : JsonList) :
    countItemsAux (fuel + 1) (.cons item rest) =
      (1 + match item with
           | .obj kvs =>
             match kvs.get "subtopics" (.arr .nil) with
             | .arr .nil => 0
             | .arr subs => countItemsAux fuel subs
             | _ => 0
           | _ => 0) +
      countItemsAux fuel rest := rfl

theorem JsonList.take_length_le : ∀ (n : Nat) (xs : JsonList),
    (JsonList.take n xs).length ≤ n
  | 0, _ => by simp [JsonList.take, JsonList.length]
  | n + 1, .nil => by simp [JsonList.take, JsonList.length]
  | n + 1, .cons hd tl => by
    simpa [JsonList.take, JsonList.length, Nat.add_comm] using
      JsonList.take_length_le n tl

theorem buildAux_wf_bundle (uu : Nat → String) :
    ∀ (fuel : Nat) (items : JsonList) (parent : Option String) (level c : Nat),
      outlineWFAux fuel items = true →
      ∃ ns es c2, buildAux uu fuel items parent level c = .ok (ns, es, c2) ∧
        ns.length = countItemsAux fuel items ∧
        c2 = c + ns.length ∧
        es.length + (match parent with | none => items.length | some _ => 0) = ns.length ∧
        (∀ i (hi : i < ns.length), ns[i].id =
          "n" ++ toString ns[i].level ++ "_" ++ (⟨(uu (c + i)).data.take 8⟩ : String)) ∧
        (∀ n ∈ ns, level ≤ n.level) ∧
        (ns.filter (fun n => n.level == level)).length = items.length ∧
        (es.map Edge.target =
          match parent with
          | some _ => ns.map Node.id
          | none => (ns.filter (fun n => decide (level < n.level))).map Node.id) ∧
        (∀ n ∈ ns, (∃ s, n.label = .str s ∧ s.data.length ≤ 140) ∧
          (∃ s, n.summary = .str s ∧ s.data.length ≤ 400) ∧
          (∃ kp, n.key_points = some (.arr kp) ∧ kp.length ≤ 6)) := by
  intro fuel
  induction fuel with
  | zero =>
    intro items parent level c hwf
    cases items with
    | nil =>
      refine ⟨[], [], c, buildAux_nil uu 0 parent level c, ?_, ?_, ?_, ?_, ?_, ?_, ?_, ?_⟩ <;>
        cases parent <;> simp [countItemsAux_nil, JsonList.length]
    | cons item rest => rw [outlineWFAux_zero] at hwf; exact Bool.noConfusion hwf
  | succ fuel ih =>
    intro items parent level c hwf
    cases items with
    | nil =>
      refine ⟨[], [], c, buildAux_nil uu _ parent level c, ?_, ?_, ?_, ?_, ?_, ?_, ?_, ?_⟩ <;>
        cases parent <;> simp [countItemsAux_nil, JsonList.length]
    | cons item rest =>
      rw [outlineWFAux_cons] at hwf
      rcases Bool.and_eq_true_iff.mp hwf with ⟨hwf1, hwf2⟩
      rcases item with _ | bI | nI | sI | aI | kvs <;> try exact Bool.noConfusion hwf1
      simp only [Bool.and_eq_true] at hwf1
      rcases hwf1 with ⟨⟨⟨hm1, hm2⟩, hm3⟩, hm4⟩
      rcases hT : kvs.get "title" (.str "") with _ | bT | nT | sT | aT | oT <;>
        rw [hT] at hm1 <;> try exact Bool.noConfusion hm1
      rcases hU : kvs.get "summary" (.str "") with _ | bU | nU | sU | aU | oU <;>
        rw [hU] at hm2 <;> try exact Bool.noConfusion hm2
      rcases hK : kvs.get "key_points" (.arr .nil) with _ | bK | nK | sK | aK | oK <;>
        rw [hK] at hm3 <;> try exact Bool.noConfusion hm3
      rw [buildAux_cons]
      dsimp only
      rw [hT, hU, hK]
      dsimp only [pySlice]
      rcases hS : kvs.get "subtopics" (.arr .nil) with _ | bS | nS | sS | aS | oS <;>
        rw [hS] at hm4 <;> try exact Bool.noConfusion hm4
      rcases aS with _ | ⟨s1, ss⟩
      · -- subtopics is the empty list: no recursion into subtopics
        rcases ih rest parent level (c + 1) hwf2 with
          ⟨rN, rE, cB, hrest, hcount, hc2, hecount, hid, hlvl, hflt, htgt, hbnd⟩
        simp only [JsonList.isEmpty, eq_self_iff_true, if_true]
        rw [hrest]
        dsimp only
        refine ⟨_, _, _, rfl, ?_, ?_, ?_, ?_, ?_, ?_, ?_, ?_⟩
        · rw [countItemsAux_cons]
          dsimp only
          rw [hS]
          dsimp only
          simp [List.length_cons, hcount]
          omega
        · simp only [List.length_cons, List.nil_append]
          omega
        · cases parent <;>
            (try simp only [] at hecount) <;>
            simp [JsonList.length, List.length_cons, List.length_append] at hecount ⊢ <;>
            omega
        · intro i hi
          match i with
          | 0 => simp [short_id]
          | Nat.succ j =>
            simp only [List.getElem_cons_succ, List.nil_append]
            have hj : j < rN.length := by
              simp only [List.length_cons, List.nil_append] at hi
              omega
            have harg : c + (j + 1) = c + 1 + j := by omega
            rw [harg]
            exact hid j hj
        · intro n hn
          rcases List.mem_cons.mp hn with rfl | hmem
          · exact Nat.le_refl _
          · exact hlvl n (by simpa using hmem)
        · simp only [List.nil_append, List.filter_cons]
          simp only [beq_self_eq_true, if_pos]
          rw [List.length_cons, hflt, JsonList.length]
          omega
        · cases parent with
          | none =>
            simp only [List.nil_append, List.filter_cons]
            have : (decide (level < level)) = false := by simp
            rw [this]
            simpa using htgt
          | some p =>
            simp only [List.nil_append, List.map_cons]
            simpa using htgt
        · intro n hn
          rcases List.mem_cons.mp hn with rfl | hmem
          · refine ⟨⟨_, rfl, ?_⟩, ⟨_, rfl, ?_⟩, ⟨_, rfl, ?_⟩⟩
            · simpa using List.length_take_le 140 sT.data
            · simpa using List.length_take_le 400 sU.data
            · exact JsonList.take_length_le 6 aK
          · exact hbnd n (by simpa using hmem)
      · -- subtopics is a non-empty list
        rcases ih (JsonList.cons s1 ss) (some (short_id uu c ("n" ++ toString level)))
            (level + 1) (c + 1) hm4 with
          ⟨sN, sE, cA, hsub, hscount, hsc2, hsecount, hsid, hslvl, hsflt, hstgt, hsbnd⟩
        rcases ih rest parent level cA hwf2 with
          ⟨rN, rE, cB, hrest, hcount, hc2, hecount, hid, hlvl, hflt, htgt, hbnd⟩
        simp only [JsonList.isEmpty, if_neg Bool.false_ne_true]
        rw [hsub]
        dsimp only
        rw [hrest]
        dsimp only
        refine ⟨_, _, _, rfl, ?_, ?_, ?_, ?_, ?_, ?_, ?_, ?_⟩
        · rw [countItemsAux_cons]
          dsimp only
          rw [hS]
          dsimp only
          simp [List.length_cons, List.length_append, hcount, hscount]
          omega
        · simp only [List.length_cons, List.length_append]
          omega
        · cases parent <;>
            dsimp only at hecount hsecount <;>
            simp [JsonList.length, List.length_cons, List.length_append] at hecount hsecount ⊢ <;>
            omega
        · intro i hi
          match i with
          | 0 => simp [short_id]
          | Nat.succ j =>
            simp only [List.getElem_cons_succ]
            by_cases hj : j < sN.length
            · rw [List.getElem_append_left hj]
              have harg : c + (j + 1) = c + 1 + j := by omega
              rw [harg]
              exact hsid j hj
            · have hj2 : j - sN.length < rN.length := by
                simp only [List.length_cons, List.length_append] at hi
                omega
              rw [List.getElem_append_right (by omega)]
              have harg : c + (j + 1) = cA + (j - sN.length) := by
                rw [hsc2]
                omega
              rw [harg]
              exact hid (j - sN.length) hj2
        · intro n hn
          rcases List.mem_cons.mp hn with rfl | hmem
          · exact Nat.le_refl _
          · rcases List.mem_append.mp hmem with hs | hr
            · exact Nat.le_of_succ_le (hslvl n hs)
            · exact hlvl n hr
        · simp only [List.filter_cons, List.filter_append]
          simp only [beq_self_eq_true, if_pos]
          have hsnone : sN.filter (fun n => n.level == level) = [] := by
            apply List.filter_eq_nil_iff.mpr
            intro n hn
            have := hslvl n hn
            simp only [beq_iff_eq]
            omega
          rw [List.length_cons, hsnone]
          simp only [List.nil_append, hflt, JsonList.length]
          omega
        · have hsall : sN.filter (fun n => decide (level < n.level)) = sN := by
            apply List.filter_eq_self.mpr
            intro n hn
            have := hslvl n hn
            simp only [decide_eq_true_eq]
            omega
          cases parent with
          | none =>
            simp only [List.nil_append, List.map_append, List.filter_cons,
              List.filter_append]
            have : (decide (level < level)) = false := by simp
            rw [this]
            simp only [if_neg Bool.false_ne_true, List.nil_append]
            rw [hsall, hstgt, htgt]
            simp
          | some p =>
            simp only [List.map_append, List.map_cons]
            rw [hstgt, htgt]
            simp
        · intro n hn
          rcases List.mem_cons.mp hn with rfl | hmem
          · refine ⟨⟨_, rfl, ?_⟩, ⟨_, rfl, ?_⟩, ⟨_, rfl, ?_⟩⟩
            · simpa using List.length_take_le 140 sT.data
            · simpa using List.length_take_le 400 sU.data
            · exact JsonList.take_length_le 6 aK
          · rcases List.mem_append.mp hmem with hs | hr
            · exact hsbnd n hs
            · exact hbnd n hr

/-- Specialisation of `buildAux_wf_bundle` to the pipeline's root call
(`parent_id=None`, `level=0`, first uuid draw), adding id uniqueness under
the hypothesis that the truncated `hex[:8]` uuid prefixes drawn are
pairwise distinct (8 ≤ each draw's length, distinct 8-char prefixes). -/
theorem build_root_bundle (uu : Nat → String) (hierarchy : JsonList)
    (hwf : outlineWF hierarchy = true)
    (hlen : ∀ i, i < countItems hierarchy → 8 ≤ (uu i).data.length)
    (hdist : ∀ i j, i < countItems hierarchy → j < countItems hierarchy → i ≠ j →
        (uu i).data.take 8 ≠ (uu j).data.take 8) :
    ∃ ns es c2,
      build_graph_from_hierarchy uu hierarchy none 0 0 = .ok (ns, es, c2) ∧
      ns.length = countItems hierarchy ∧
      es.length + hierarchy.length = countItems hierarchy ∧
      (ns.map Node.id).Nodup ∧
      es.map Edge.target = (ns.filter (fun n => decide (0 < n.level))).map Node.id ∧
      (ns.filter (fun n => n.level == 0)).length = hierarchy.length := by
  rcases buildAux_wf_bundle uu hierarchy.jsizeL hierarchy none 0 0 hwf with
    ⟨ns, es, c2, hrun, hcount, hc2, hecount, hid, hlvl, hflt, htgt, hbnd⟩
  have hcnt : ns.length = countItems hierarchy := hcount
  have he2 : es.length + hierarchy.length = ns.length := hecount
  have hids : ∀ i, (hi : i < ns.length) → ns[i].id =
      "n" ++ toString ns[i].level ++ "_" ++ (⟨(uu i).data.take 8⟩ : String) := by
    intro i hi
    have h := hid i hi
    rw [Nat.zero_add] at h
    exact h
  refine ⟨ns, es, c2, hrun, hcnt, by omega, ?_, htgt, hflt⟩
  rw [List.nodup_iff_injective_get]
  intro a b hEq
  rcases a with ⟨i, hi⟩
  rcases b with ⟨j, hj⟩
  have hi' : i < ns.length := by simpa using hi
  have hj' : j < ns.length := by simpa using hj
  simp only [List.get_eq_getElem, List.getElem_map] at hEq
  have hij : i = j := by
    by_contra hne
    rw [hids i hi', hids j hj'] at hEq
    have hdata := congrArg String.data hEq
    simp only [String.data_append] at hdata
    have hlen1 : ((uu i).data.take 8).length = 8 := by
      rw [List.length_take]
      exact Nat.min_eq_left (hlen i (hcnt ▸ hi'))
    have hlen2 : ((uu j).data.take 8).length = 8 := by
      rw [List.length_take]
      exact Nat.min_eq_left (hlen j (hcnt ▸ hj'))
    have hsuf := (List.append_inj' hdata (by rw [hlen1, hlen2])).2
    exact hdist i j (hcnt ▸ hi') (hcnt ▸ hj') hne hsuf
  exact Fin.ext hij

/-- **C3 (counterexample).** With the colliding uuid oracle (every draw
the same hex string), a two-item outline yields two nodes with identical
ids `n0_aaaaaaaa`: node-id uniqueness fails. -/
theorem duplicate_node_ids :
    ∃ ns es c2,
      build_graph_from_hierarchy uuConst outlinePair none 0 0 = .ok (ns, es, c2) ∧
      ns.length = 2 ∧ ¬ (ns.map Node.id).Nodup := by
  refine ⟨_, _, _, rfl, rfl, ?_⟩
  decide

/-- **C3 (amended).** For a data-model outline with `countItems` items in
total, the root call of `build_graph_from_hierarchy` produces exactly
`countItems` nodes and `countItems` minus the number of top-level items
edges; node ids are unique PROVIDED the truncated `uuid4().hex[:8]` draws
are pairwise distinct (the code never checks this). -/
theorem build_graph_counts_and_unique_ids (uu : Nat → String) (hierarchy : JsonList)
    (hwf : outlineWF hierarchy = true)
    (hlen : ∀ i, i < countItems hierarchy → 8 ≤ (uu i).data.length)
    (hdist : ∀ i j, i < countItems hierarchy → j < countItems hierarchy → i ≠ j →
        (uu i).data.take 8 ≠ (uu j).data.take 8) :
    ∃ ns es c2,
      build_graph_from_hierarchy uu hierarchy none 0 0 = .ok (ns, es, c2) ∧
      ns.length = countItems hierarchy ∧
      es.length + hierarchy.length = countItems hierarchy ∧
      (ns.map Node.id).Nodup := by
  rcases build_root_bundle uu hierarchy hwf hlen hdist with
    ⟨ns, es, c2, h1, h2, h3, h4, _, _⟩
  exact ⟨ns, es, c2, h1, h2, h3, h4⟩

/-- **C3 (witness).** On a 4-item nested outline with distinct uuid draws:
4 nodes, 4 − 2 = 2 edges, all ids distinct. -/
theorem build_graph_counts_and_unique_ids_witness :
    ∃ ns es c2,
      build_graph_from_hierarchy uuDistinct outlineNested none 0 0 = .ok (ns, es, c2) ∧
      ns.length = countItems outlineNested ∧
      es.length + outlineNested.length = countItems outlineNested ∧
      (ns.map Node.id).Nodup :=
  build_graph_counts_and_unique_ids uuDistinct outlineNested (by decide)
    (by intro i hi
        have h4 : countItems outlineNested = 4 := by decide
        rw [h4] at hi
        interval_cases i <;> decide)
    (by intro i j hi hj hne
        have h4 : countItems outlineNested = 4 := by decide
        rw [h4] at hi hj
        interval_cases i <;> interval_cases j <;> first | exact absurd rfl hne | decide)

/-- **C4.** Every node built from a data-model outline has a string label
of at most 140 characters, a string summary of at most 400 characters,
and a key_points list of at most 6 entries. -/
theorem node_field_bounds (uu : Nat → String) (hierarchy : JsonList)
    (hwf : outlineWF hierarchy = true) :
    ∃ ns es c2,
      build_graph_from_hierarchy uu hierarchy none 0 0 = .ok (ns, es, c2) ∧
      ∀ n ∈ ns,
        (∃ s, n.label = .str s ∧ s.data.length ≤ 140) ∧
        (∃ s, n.summary = .str s ∧ s.data.length ≤ 400) ∧
        (∃ kp, n.key_points = some (.arr kp) ∧ kp.length ≤ 6) := by
  rcases buildAux_wf_bundle uu hierarchy.jsizeL hierarchy none 0 0 hwf with
    ⟨ns, es, c2, hrun, _, _, _, _, _, _, _, hbnd⟩
  exact ⟨ns, es, c2, hrun, hbnd⟩

/-- **C4 (witness).** The bounds hold on a concrete two-item outline. -/
theorem node_field_bounds_witness :
    ∃ ns es c2,
      build_graph_from_hierarchy uuConst outlinePair none 0 0 = .ok (ns, es, c2) ∧
      ∀ n ∈ ns,
        (∃ s, n.label = .str s ∧ s.data.length ≤ 140) ∧
        (∃ s, n.summary = .str s ∧ s.data.length ≤ 400) ∧
        (∃ kp, n.key_points = some (.arr kp) ∧ kp.length ≤ 6) :=
  node_field_bounds uuConst outlinePair (by decide)

/-- **C5 (counterexample).** With colliding uuid draws on a nested
outline ([Alpha[Beta], Gamma[Delta]]), both edges point at the SAME
target id `n1_aaaaaaaa`: an edge's target has two inbound edges. -/
theorem edge_target_double_inbound :
    ∃ ns es c2,
      build_graph_from_hierarchy uuConst outlineNested none 0 0 = .ok (ns, es, c2) ∧
      ∃ e ∈ es, (es.filter (fun e2 => e2.target == e.target)).length = 2 := by
  refine ⟨_, _, _, rfl, ?_⟩
  decide

/-- **C5 (amended).** Under pairwise-distinct truncated uuid draws, every
edge's target id is the target of exactly one edge; and when the outline
has exactly one top-level item, exactly one node has zero inbound edges.
Without that proviso the property fails (`edge_target_double_inbound`). -/
theorem edge_targets_unique_inbound (uu : Nat → String) (hierarchy : JsonList)
    (hwf : outlineWF hierarchy = true)
    (hlen : ∀ i, i < countItems hierarchy → 8 ≤ (uu i).data.length)
    (hdist : ∀ i j, i < countItems hierarchy → j < countItems hierarchy → i ≠ j →
        (uu i).data.take 8 ≠ (uu j).data.take 8) :
    ∃ ns es c2,
      build_graph_from_hierarchy uu hierarchy none 0 0 = .ok (ns, es, c2) ∧
      (∀ e ∈ es, (es.filter (fun e2 => e2.target == e.target)).length = 1) ∧
      (hierarchy.length = 1 →
        (ns.filter (fun n => es.countP (fun e => e.target == n.id) == 0)).length = 1) := by
  rcases build_root_bundle uu hierarchy hwf hlen hdist with
    ⟨ns, es, c2, h1, _, _, hnd, htgt, hflt⟩
  have hndT : (es.map Edge.target).Nodup := by
    rw [htgt]
    exact List.Nodup.sublist (List.Sublist.map Node.id (List.filter_sublist ns)) hnd
  have hcntP : ∀ t, es.countP (fun e => e.target == t) = (es.map Edge.target).count t := by
    intro t
    rw [List.count, List.countP_map]
    rfl
  refine ⟨ns, es, c2, h1, ?_, ?_⟩
  · intro e he
    have hmem : e.target ∈ es.map Edge.target := List.mem_map_of_mem Edge.target he
    rw [← List.countP_eq_length_filter, hcntP]
    exact List.count_eq_one_of_mem hndT hmem
  · intro h1len
    have hmemIff : ∀ n ∈ ns,
        (es.countP (fun e => e.target == n.id) == 0) = (n.level == 0) := by
      intro n hn
      by_cases hl : n.level = 0
      · have hnotin : n.id ∉ es.map Edge.target := by
          rw [htgt]
          intro hin
          rcases List.mem_map.mp hin with ⟨m, hmF, hmid⟩
          rcases List.mem_filter.mp hmF with ⟨hmns, hmlvl⟩
          have hmn : m = n := List.inj_on_of_nodup_map hnd hmns hn hmid
          rw [hmn, hl] at hmlvl
          simp at hmlvl
        rw [hcntP, List.count_eq_zero.mpr hnotin, hl]
      · have hin : n.id ∈ es.map Edge.target := by
          rw [htgt]
          refine List.mem_map_of_mem Node.id (List.mem_filter.mpr ⟨hn, ?_⟩)
          simp only [decide_eq_true_eq]
          omega
        rw [hcntP, List.count_eq_one_of_mem hndT hin]
        simp [hl]
    rw [List.filter_congr hmemIff, hflt]
    exact h1len

/-- **C5 (witness).** On a single-top-level-item outline with distinct
uuid draws: the one edge's target has exactly one inbound edge, and
exactly one node (the root item's node) has zero inbound edges. -/
theorem edge_targets_unique_inbound_witness :
    ∃ ns es c2,
      build_graph_from_hierarchy uuDistinct outlineSingle none 0 0 = .ok (ns, es, c2) ∧
      (∀ e ∈ es, (es.filter (fun e2 => e2.target == e.target)).length = 1) ∧
      (outlineSingle.length = 1 →
        (ns.filter (fun n => es.countP (fun e => e.target == n.id) == 0)).length = 1) :=
  edge_targets_unique_inbound uuDistinct outlineSingle (by decide)
    (by intro i hi
        have h2 : countItems outlineSingle = 2 := by decide
        rw [h2] at hi
        interval_cases i <;> decide)
    (by intro i j hi hj hne
        have h2 : countItems outlineSingle = 2 := by decide
        rw [h2] at hi hj
        interval_cases i <;> interval_cases j <;> first | exact absurd rfl hne | decide)

theorem dedupFirstAux_nil_eq (seen : List String) : dedupFirstAux [] seen = [] := rfl

theorem dedupFirstAux_cons_eq (w : String) (ws seen : List String) :
    dedupFirstAux (w :: ws) seen =
      if seen.contains w then dedupFirstAux ws seen
      else w :: dedupFirstAux ws (w :: seen) := rfl

theorem counterAdd_nil_eq (w : String) : counterAdd [] w = [(w, 1)] := rfl

theorem counterAdd_cons_eq (k : String) (c : Nat) (rest : List (String × Nat)) (w : String) :
    counterAdd ((k, c) :: rest) w =
      if k = w then (k, c + 1) :: rest else (k, c) :: counterAdd rest w := rfl

theorem contains_append_or (l1 l2 : List String) (x : String) :
    (l1 ++ l2).contains x = (l1.contains x || l2.contains x) := by
  induction l1 with
  | nil => simp
  | cons a l ih => simp [List.contains_cons, ih, Bool.or_assoc]

theorem dedupFirstAux_not_seen (ws : List String) :
    ∀ seen v, v ∈ dedupFirstAux ws seen → seen.contains v = false := by
  induction ws with
  | nil =>
    intro seen v h
    rw [dedupFirstAux_nil_eq] at h
    exact absurd h (List.not_mem_nil v)
  | cons w ws ih =>
    intro seen v h
    rw [dedupFirstAux_cons_eq] at h
    by_cases hw : seen.contains w = true
    · rw [if_pos hw] at h
      exact ih seen v h
    · rw [if_neg hw] at h
      rcases List.mem_cons.mp h with h1 | h1
      · subst h1
        exact Bool.eq_false_iff.mpr hw
      · have h2 := ih (w :: seen) v h1
        simp only [List.contains_cons, Bool.or_eq_false_iff] at h2
        exact h2.2

theorem dedupFirstAux_congr (ws : List String) :
    ∀ seen1 seen2, (∀ v, seen1.contains v = seen2.contains v) →
      dedupFirstAux ws seen1 = dedupFirstAux ws seen2 := by
  induction ws with
  | nil => intro _ _ _; rfl
  | cons w ws ih =>
    intro seen1 seen2 hc
    rw [dedupFirstAux_cons_eq, dedupFirstAux_cons_eq, hc w]
    by_cases hw : seen2.contains w = true
    · rw [if_pos hw, if_pos hw]
      exact ih seen1 seen2 hc
    · rw [if_neg hw, if_neg hw]
      rw [ih (w :: seen1) (w :: seen2) (by
        intro v
        simp only [List.contains_cons, hc v])]

theorem counterAdd_not_mem (w : String) :
    ∀ acc : List (String × Nat), (acc.map Prod.fst).contains w = false →
      counterAdd acc w = acc ++ [(w, 1)] := by
  intro acc
  induction acc with
  | nil => intro _; rfl
  | cons p acc ih =>
    rcases p with ⟨k, c⟩
    intro h
    simp only [List.map_cons, List.contains_cons, Bool.or_eq_false_iff] at h
    rw [counterAdd_cons_eq, if_neg (fun he => by
      rw [he] at h
      simp at h), ih h.2]
    rfl

theorem counterAdd_mem (w : String) :
    ∀ acc : List (String × Nat), (acc.map Prod.fst).Nodup →
      (acc.map Prod.fst).contains w = true →
      counterAdd acc w = acc.map (fun p => if p.1 = w then (p.1, p.2 + 1) else p) := by
  intro acc
  induction acc with
  | nil =>
    intro _ h
    simp [List.contains] at h
  | cons p acc ih =>
    rcases p with ⟨k, c⟩
    intro hnd hct
    simp only [List.map_cons, List.contains_cons, Bool.or_eq_true] at hct
    rw [counterAdd_cons_eq]
    by_cases hk : k = w
    · rw [if_pos hk]
      subst hk
      have hndk : (k :: acc.map Prod.fst).Nodup := by simpa using hnd
      have hnotin : k ∉ acc.map Prod.fst := (List.nodup_cons.mp hndk).1
      have hele : ∀ q ∈ acc, (fun p => if p.1 = k then (p.1, p.2 + 1) else p) q = q := by
        intro q hq
        dsimp only
        rw [if_neg]
        intro he
        exact hnotin (he ▸ List.mem_map_of_mem Prod.fst hq)
      rw [List.map_cons]
      dsimp only
      rw [if_pos rfl, List.map_congr_left hele, List.map_id']
    · rw [if_neg hk]
      have hct' : (acc.map Prod.fst).contains w = true := by
        rcases hct with h1 | h1
        · exact absurd (beq_iff_eq.mp h1).symm hk
        · exact h1
      have hnd' : (acc.map Prod.fst).Nodup := (List.nodup_cons.mp (by simpa using hnd)).2
      rw [ih hnd' hct']
      simp only [List.map_cons, if_neg hk]

theorem foldl_counterAdd (ws : List String) :
    ∀ acc : List (String × Nat), (acc.map Prod.fst).Nodup →
      List.foldl counterAdd acc ws =
        acc.map (fun p => (p.1, p.2 + ws.count p.1)) ++
        (dedupFirstAux ws (acc.map Prod.fst)).map (fun v => (v, ws.count v)) := by
  induction ws with
  | nil =>
    intro acc hnd
    simp [dedupFirstAux_nil_eq, List.count_nil, Prod.mk.eta]
  | cons w ws ih =>
    intro acc hnd
    rw [List.foldl_cons, dedupFirstAux_cons_eq]
    by_cases hw : (acc.map Prod.fst).contains w = true
    · rw [if_pos hw, counterAdd_mem w acc hnd hw]
      have hkeys : ((acc.map (fun p => if p.1 = w then (p.1, p.2 + 1) else p)).map Prod.fst) =
          acc.map Prod.fst := by
        rw [List.map_map]
        apply List.map_congr_left
        intro p _
        by_cases h : p.1 = w <;> simp [h]
      have hnd2 : (((acc.map (fun p => if p.1 = w then (p.1, p.2 + 1) else p)).map
          Prod.fst)).Nodup := by
        rw [hkeys]
        exact hnd
      rw [ih _ hnd2, hkeys]
      congr 1
      · rw [List.map_map]
        apply List.map_congr_left
        intro p _
        by_cases h : p.1 = w
        · have hc : List.count p.1 (w :: ws) = List.count p.1 ws + 1 := by
            rw [List.count_cons]
            simp [h]
          simp only [Function.comp_apply, if_pos h]
          rw [hc]
          congr 1
          omega
        · have hb : (w == p.1) = false := by
            simp only [beq_eq_false_iff_ne]
            exact fun he => h he.symm
          have hc : List.count p.1 (w :: ws) = List.count p.1 ws := by
            rw [List.count_cons, hb]
            simp
          simp only [Function.comp_apply, if_neg h]
          rw [hc]
      · apply List.map_congr_left
        intro v hv
        have hns := dedupFirstAux_not_seen ws (acc.map Prod.fst) v hv
        have hvw : ¬ v = w := by
          intro he
          rw [he, hw] at hns
          exact Bool.noConfusion hns
        have hb : (w == v) = false := by
          simp only [beq_eq_false_iff_ne]
          exact fun he => hvw he.symm
        have hc : List.count v (w :: ws) = List.count v ws := by
          rw [List.count_cons, hb]
          simp
        rw [hc]
    · rw [if_neg hw]
      have hwf : (acc.map Prod.fst).contains w = false := Bool.eq_false_iff.mpr hw
      rw [counterAdd_not_mem w acc hwf]
      have hkeys : ((acc ++ [(w, 1)]).map Prod.fst) = acc.map Prod.fst ++ [w] := by
        simp
      have hnotmem : w ∉ acc.map Prod.fst := by simpa using hwf
      have hnd2 : (((acc ++ [(w, 1)]).map Prod.fst)).Nodup := by
        rw [hkeys, List.nodup_append]
        refine ⟨hnd, List.nodup_singleton w, ?_⟩
        intro x hx hx1
        rw [List.mem_singleton.mp hx1] at hx
        exact hnotmem hx
      rw [ih _ hnd2, hkeys]
      have hsing : ∀ v : String, ([w] : List String).contains v = (v == w) := by
        intro v
        rw [List.contains_cons]
        exact Bool.or_false _
      rw [dedupFirstAux_congr ws (acc.map Prod.fst ++ [w]) (w :: acc.map Prod.fst) (by
        intro v
        rw [contains_append_or, hsing v, Bool.or_comm, List.contains_cons])]
      rw [List.map_append, List.append_assoc]
      congr 1
      · apply List.map_congr_left
        intro p hp
        have hpw : ¬ p.1 = w := by
          intro he
          exact hnotmem (he ▸ List.mem_map_of_mem Prod.fst hp)
        have hb : (w == p.1) = false := by
          simp only [beq_eq_false_iff_ne]
          exact fun he => hpw he.symm
        have hc : List.count p.1 (w :: ws) = List.count p.1 ws := by
          rw [List.count_cons, hb]
          simp
        rw [hc]
      · simp only [List.map_cons, List.map_nil, List.cons_append, List.nil_append]
        congr 1
        · have hc : List.count w (w :: ws) = List.count w ws + 1 := by
            rw [List.count_cons]
            simp
          rw [hc]
          congr 1
          omega
        · apply List.map_congr_left
          intro v hv
          have hns := dedupFirstAux_not_seen ws (w :: acc.map Prod.fst) v hv
          simp only [List.contains_cons, Bool.or_eq_false_iff] at hns
          have hvw : ¬ v = w := by
            intro he
            rw [he] at hns
            simp at hns
          have hb : (w == v) = false := by
            simp only [beq_eq_false_iff_ne]
            exact fun he => hvw he.symm
          have hc : List.count v (w :: ws) = List.count v ws := by
            rw [List.count_cons, hb]
            simp
          rw [hc]

/-- `Counter(words).most_common` order: the fold-built counter lists each
distinct word once, in first-occurrence order, with its total count. -/
theorem counterList_eq (ws : List String) :
    counterList ws = (dedupFirst ws).map (fun v => (v, ws.count v)) := by
  have h := foldl_counterAdd ws [] (by simp)
  simpa [counterList, dedupFirst] using h

/-- **C8 (counterexample).** The length filter applies to the RAW
whitespace token, before lowercasing/stripping: on a node whose pooled
text is "aaaa (b).", the code keeps the token "(b)." (raw length 4) and
emits the stripped keyword "b" (length 1), which the claim's literal
strip-then-filter reading would drop. -/
theorem keywords_raw_length_filter :
    keywords_stage
      [{ id := "n0_x", label := .str "aaaa (b).", level := 0, summary := .str "",
         key_points := none, ai_explanation := none }] = ["aaaa", "b"] ∧
    keywords_claim_literal ["aaaa (b). "] = ["aaaa"] := by
  constructor <;> rfl

/-- **C8 (amended).** meta.keywords is computed from the pooled node
labels and summaries by keeping the RAW whitespace-split tokens longer
than 3 characters, then lowercasing and stripping the punctuation set
".,:;()[]" from each kept token, and taking the 12 most frequent in
descending frequency with ties in first-encountered order; the stage is
a pure function of the nodes, and when pooling raises (a non-string
label or summary) the keyword list is empty. -/
theorem keywords_stage_described (nodes : List Node) :
    (∀ parts, mapExcept (fun n => pyAddStrings n.label n.summary) nodes = .ok parts →
      keywords_stage nodes = keywords_described parts) ∧
    (∀ e, mapExcept (fun n => pyAddStrings n.label n.summary) nodes = .error e →
      keywords_stage nodes = []) := by
  constructor
  · intro parts hok
    rw [keywords_stage, keywords_body, hok]
    dsimp only
    rw [keywords_described, counterList_eq]
  · intro e herr
    rw [keywords_stage, keywords_body, herr]

/-- **C8 (witness).** Both branches hit on concrete nodes: a well-formed
node matches the described selection; a node with a numeric label
yields an empty keyword list. -/
theorem keywords_stage_described_witness :
    keywords_stage
      [{ id := "n0_x", label := .str "Alpha beta gamma.", level := 0,
         summary := .str "delta (x).", key_points := none, ai_explanation := none }] =
      keywords_described ["Alpha beta gamma. delta (x)."] ∧
    keywords_stage
      [{ id := "n0_y", label := .num 5, level := 0, summary := .str "",
         key_points := none, ai_explanation := none }] = [] :=
  ⟨(keywords_stage_described _).1 ["Alpha beta gamma. delta (x)."] rfl,
   (keywords_stage_described _).2 PyErr.typeError rfl⟩

theorem parseStrBody_close (rest : List Char) :
    parseStrBody ('"' :: rest) = some ([], rest) := by
  rw [parseStrBody.eq_def]
  simp

theorem parseStrBody_cons_eq (c : Char) (rest : List Char) :
    parseStrBody (c :: rest) =
      (if c = '"' then some ([], rest)
       else if c = '\\' then
         match rest with
         | [] => none
         | e :: rest2 =>
           if e = '"' then (parseStrBody rest2).map (fun p => ('"' :: p.1, p.2))
           else if e = '\\' then (parseStrBody rest2).map (fun p => ('\\' :: p.1, p.2))
           else if e = '/' then (parseStrBody rest2).map (fun p => ('/' :: p.1, p.2))
           else if e = 'n' then (parseStrBody rest2).map (fun p => ('\n' :: p.1, p.2))
           else if e = 't' then (parseStrBody rest2).map (fun p => ('\t' :: p.1, p.2))
           else if e = 'r' then (parseStrBody rest2).map (fun p => ('\r' :: p.1, p.2))
           else if e = 'b' then (parseStrBody rest2).map (fun p => ('\x08' :: p.1, p.2))
           else if e = 'f' then (parseStrBody rest2).map (fun p => ('\x0c' :: p.1, p.2))
           else if e = 'u' then
             match rest2 with
             | h1 :: h2 :: h3 :: h4 :: rest3 =>
               match hexVal h1, hexVal h2, hexVal h3, hexVal h4 with
               | some a, some b, some c2, some d =>
                 (parseStrBody rest3).map
                   (fun p => (Char.ofNat (((a * 16 + b) * 16 + c2) * 16 + d) :: p.1, p.2))
               | _, _, _, _ => none
             | _ => none
           else none
       else if c.toNat < 32 then none
       else (parseStrBody rest).map (fun p => (c :: p.1, p.2))) := by
  rw [parseStrBody.eq_def]

theorem parseStrBody_plain (c : Char) (tail : List Char)
    (h1 : ¬ c = '"') (h2 : ¬ c = '\\') (h3 : ¬ c.toNat < 32) :
    parseStrBody (c :: tail) = (parseStrBody tail).map (fun p => (c :: p.1, p.2)) := by
  rw [parseStrBody_cons_eq, if_neg h1, if_neg h2, if_neg h3]

theorem parseStrBody_esc_quote (t : List Char) :
    parseStrBody ('\\' :: '"' :: t) = (parseStrBody t).map (fun p => ('"' :: p.1, p.2)) := by
  rw [parseStrBody.eq_def]
  simp

theorem parseStrBody_esc_bslash (t : List Char) :
    parseStrBody ('\\' :: '\\' :: t) = (parseStrBody t).map (fun p => ('\\' :: p.1, p.2)) := by
  rw [parseStrBody.eq_def]
  simp

theorem parseStrBody_esc_n (t : List Char) :
    parseStrBody ('\\' :: 'n' :: t) = (parseStrBody t).map (fun p => ('\n' :: p.1, p.2)) := by
  rw [parseStrBody.eq_def]
  simp

theorem parseStrBody_esc_t (t : List Char) :
    parseStrBody ('\\' :: 't' :: t) = (parseStrBody t).map (fun p => ('\t' :: p.1, p.2)) := by
  rw [parseStrBody.eq_def]
  simp

theorem parseStrBody_esc_r (t : List Char) :
    parseStrBody ('\\' :: 'r' :: t) = (parseStrBody t).map (fun p => ('\r' :: p.1, p.2)) := by
  rw [parseStrBody.eq_def]
  simp

theorem parseStrBody_esc_b (t : List Char) :
    parseStrBody ('\\' :: 'b' :: t) = (parseStrBody t).map (fun p => ('\x08' :: p.1, p.2)) := by
  rw [parseStrBody.eq_def]
  simp

theorem parseStrBody_esc_f (t : List Char) :
    parseStrBody ('\\' :: 'f' :: t) = (parseStrBody t).map (fun p => ('\x0c' :: p.1, p.2)) := by
  rw [parseStrBody.eq_def]
  simp

theorem parseStrBody_u (h1 h2 h3 h4 : Char) (tail : List Char) :
    parseStrBody ('\\' :: 'u' :: h1 :: h2 :: h3 :: h4 :: tail) =
      (match hexVal h1, hexVal h2, hexVal h3, hexVal h4 with
       | some a, some b, some c2, some d =>
         (parseStrBody tail).map
           (fun p => (Char.ofNat (((a * 16 + b) * 16 + c2) * 16 + d) :: p.1, p.2))
       | _, _, _, _ => none) := by
  rw [parseStrBody.eq_def]
  simp

theorem hexVal_hexDigitChar (d : Nat) (h : d < 16) :
    hexVal (hexDigitChar d) = some d := by
  interval_cases d <;> rfl

theorem parseStrBody_dumps (cs : List Char) :
    ∀ rest : List Char,
      parseStrBody ((cs.map escChar).flatten ++ '"' :: rest) = some (cs, rest) := by
  induction cs with
  | nil => intro rest; exact parseStrBody_close rest
  | cons c cs ih =>
    intro rest
    rw [List.map_cons, List.flatten_cons, List.append_assoc]
    by_cases e1 : c = '"'
    · subst e1
      rw [show escChar '"' = ['\\', '"'] from rfl, List.cons_append, List.cons_append,
        List.nil_append]
      rw [parseStrBody_esc_quote, ih rest]
      rfl
    · by_cases e2 : c = '\\'
      · subst e2
        rw [show escChar '\\' = ['\\', '\\'] from rfl, List.cons_append, List.cons_append,
          List.nil_append]
        rw [parseStrBody_esc_bslash, ih rest]
        rfl
      · by_cases e3 : c = '\n'
        · subst e3
          rw [show escChar '\n' = ['\\', 'n'] from rfl, List.cons_append, List.cons_append,
            List.nil_append]
          rw [parseStrBody_esc_n, ih rest]
          rfl
        · by_cases e4 : c = '\t'
          · subst e4
            rw [show escChar '\t' = ['\\', 't'] from rfl, List.cons_append, List.cons_append,
              List.nil_append]
            rw [parseStrBody_esc_t, ih rest]
            rfl
          · by_cases e5 : c = '\r'
            · subst e5
              rw [show escChar '\r' = ['\\', 'r'] from rfl, List.cons_append, List.cons_append,
                List.nil_append]
              rw [parseStrBody_esc_r, ih rest]
              rfl
            · by_cases e6 : c = '\x08'
              · subst e6
                rw [show escChar '\x08' = ['\\', 'b'] from rfl, List.cons_append,
                  List.cons_append, List.nil_append]
                rw [parseStrBody_esc_b, ih rest]
                rfl
              · by_cases e7 : c = '\x0c'
                · subst e7
                  rw [show escChar '\x0c' = ['\\', 'f'] from rfl, List.cons_append,
                    List.cons_append, List.nil_append]
                  rw [parseStrBody_esc_f, ih rest]
                  rfl
                · by_cases e8 : c.toNat < 32
                  · have hesc : escChar c =
                        ['\\', 'u', '0', '0', hexDigitChar (c.toNat / 16),
                         hexDigitChar (c.toNat % 16)] := by
                      unfold escChar
                      rw [if_neg e1, if_neg e2, if_neg e3, if_neg e4, if_neg e5,
                        if_neg e6, if_neg e7, if_pos e8]
                    rw [hesc, List.cons_append, List.cons_append, List.cons_append,
                      List.cons_append, List.cons_append, List.cons_append, List.nil_append]
                    rw [parseStrBody_u]
                    rw [show hexVal '0' = some 0 from rfl]
                    rw [hexVal_hexDigitChar (c.toNat / 16) (by omega),
                      hexVal_hexDigitChar (c.toNat % 16) (by omega)]
                    dsimp only
                    rw [show ((0 * 16 + 0) * 16 + c.toNat / 16) * 16 + c.toNat % 16 =
                      c.toNat from by omega]
                    rw [Char.ofNat_toNat, ih rest]
                    rfl
                  · have hesc : escChar c = [c] := by
                      unfold escChar
                      rw [if_neg e1, if_neg e2, if_neg e3, if_neg e4, if_neg e5,
                        if_neg e6, if_neg e7, if_neg e8]
                    rw [hesc, List.cons_append, List.nil_append]
                    rw [parseStrBody_plain c _ e1 e2 e8, ih rest]
                    rfl

theorem natCharsAux_succ (f m : Nat) :
    natCharsAux (f + 1) m =
      if m < 10 then [digitChar m] else natCharsAux f (m / 10) ++ [digitChar (m % 10)] := rfl

theorem digitChar_isDigit (m : Nat) (h : m < 10) : (digitChar m).isDigit = true := by
  interval_cases m <;> decide

theorem digitVal_digitChar (m : Nat) (h : m < 10) : digitVal (digitChar m) = m := by
  interval_cases m <;> decide

theorem digitChar_ne_zero (m : Nat) (h0 : 1 ≤ m) (h : m < 10) : ¬ digitChar m = '0' := by
  interval_cases m <;> decide

theorem natCharsAux_spec : ∀ fuel m, m < fuel →
    natCharsAux fuel m ≠ [] ∧
    (∀ c ∈ natCharsAux fuel m, c.isDigit = true) ∧
    (∀ a : Nat, (natCharsAux fuel m).foldl (fun a c => a * 10 + digitVal c) a =
      a * 10 ^ (natCharsAux fuel m).length + m) := by
  intro fuel
  induction fuel with
  | zero => intro m h; omega
  | succ f ih =>
    intro m h
    rw [natCharsAux_succ]
    by_cases hm : m < 10
    · rw [if_pos hm]
      refine ⟨by simp, ?_, ?_⟩
      · intro c hc
        rw [List.mem_singleton.mp hc]
        exact digitChar_isDigit m hm
      · intro a
        simp [List.foldl_cons, List.foldl_nil, digitVal_digitChar m hm, pow_one]
    · rw [if_neg hm]
      have hlt : m / 10 < f := by omega
      rcases ih (m / 10) hlt with ⟨hne, hdig, hfold⟩
      refine ⟨by simp [hne], ?_, ?_⟩
      · intro c hc
        rcases List.mem_append.mp hc with h1 | h1
        · exact hdig c h1
        · rw [List.mem_singleton.mp h1]
          exact digitChar_isDigit (m % 10) (by omega)
      · intro a
        rw [List.foldl_append, hfold a, List.length_append, List.length_singleton]
        simp only [List.foldl_cons, List.foldl_nil]
        rw [digitVal_digitChar (m % 10) (by omega), pow_succ]
        have : m / 10 * 10 + m % 10 = m := by omega
        ring_nf
        omega

theorem natCharsAux_head_ne_zero : ∀ fuel m, m < fuel → 1 ≤ m →
    ¬ (natCharsAux fuel m).head? = some '0' := by
  intro fuel
  induction fuel with
  | zero => intro m h; omega
  | succ f ih =>
    intro m h h1
    rw [natCharsAux_succ]
    by_cases hm : m < 10
    · rw [if_pos hm]
      intro he
      exact digitChar_ne_zero m h1 hm (Option.some.inj he)
    · rw [if_neg hm]
      have hlt : m / 10 < f := by omega
      rcases natCharsAux_spec f (m / 10) hlt with ⟨hne, _, _⟩
      rcases List.exists_cons_of_ne_nil hne with ⟨hd, tl, hcons⟩
      rw [hcons, List.cons_append, List.head?_cons]
      intro he
      have := ih (m / 10) hlt (by omega)
      rw [hcons, List.head?_cons] at this
      exact this he

theorem natChars_nonempty (n : Nat) : natChars n ≠ [] :=
  (natCharsAux_spec (n + 1) n (Nat.lt_succ_self n)).1

theorem natChars_digits (n : Nat) : ∀ c ∈ natChars n, c.isDigit = true :=
  (natCharsAux_spec (n + 1) n (Nat.lt_succ_self n)).2.1

theorem foldDigits_natChars (n : Nat) : foldDigits (natChars n) = n := by
  have h := (natCharsAux_spec (n + 1) n (Nat.lt_succ_self n)).2.2 0
  show (natCharsAux (n + 1) n).foldl (fun a c => a * 10 + digitVal c) 0 = n
  rw [h]
  ring

theorem natChars_no_leading_zero (n : Nat) :
    ¬ (1 < (natChars n).length ∧ (natChars n).head? = some '0') := by
  rcases Nat.eq_zero_or_pos n with h0 | h1
  · subst h0
    rw [show natChars 0 = ['0'] from rfl]
    intro hc
    simp at hc
  · intro hc
    exact natCharsAux_head_ne_zero (n + 1) n (Nat.lt_succ_self n) h1 hc.2

theorem takeWhile_all_append (p : Char → Bool) (l2 : List Char)
    (h2 : l2.takeWhile p = []) :
    ∀ l1 : List Char, (∀ c ∈ l1, p c = true) → (l1 ++ l2).takeWhile p = l1 := by
  intro l1
  induction l1 with
  | nil => intro _; exact h2
  | cons c t ih =>
    intro h
    rw [List.cons_append, List.takeWhile_cons, h c (List.mem_cons_self c t), if_pos rfl,
      ih (fun x hx => h x (List.mem_cons_of_mem c hx))]

theorem dropWhile_all_append (p : Char → Bool) (l2 : List Char)
    (h2 : l2.dropWhile p = l2) :
    ∀ l1 : List Char, (∀ c ∈ l1, p c = true) → (l1 ++ l2).dropWhile p = l2 := by
  intro l1
  induction l1 with
  | nil => intro _; exact h2
  | cons c t ih =>
    intro h
    rw [List.cons_append, List.dropWhile_cons, h c (List.mem_cons_self c t), if_pos rfl]
    exact ih (fun x hx => h x (List.mem_cons_of_mem c hx))

theorem numStop_stops (rest : List Char) (h : numStop rest = true) :
    rest.takeWhile Char.isDigit = [] ∧ rest.dropWhile Char.isDigit = rest := by
  cases rest with
  | nil => exact ⟨rfl, rfl⟩
  | cons c t =>
    have hform : numStop (c :: t) =
        !(c.isDigit || c = '.' || c = 'e' || c = 'E') := rfl
    rw [hform] at h
    have hn : c.isDigit = false := by
      have h2 : (c.isDigit || decide (c = '.') || decide (c = 'e') || decide (c = 'E')) =
          false := by
        simpa using h
      simp only [Bool.or_eq_false_iff] at h2
      exact h2.1.1.1
    rw [List.takeWhile_cons, List.dropWhile_cons, hn]
    exact ⟨rfl, rfl⟩

theorem intSgn_minus (r : List Char) : intSgn ('-' :: r) = (true, r) := by
  rw [intSgn.eq_def]
  simp

theorem intSgn_not_minus (d : Char) (t : List Char) (h : ¬ d = '-') :
    intSgn (d :: t) = (false, d :: t) := by
  unfold intSgn
  split
  · next r heq =>
    injection heq with h1 h2
    exact absurd h1 h
  · rfl

theorem parseIntToken_digits (d : Char) (ds' rest : List Char)
    (hdig : ∀ c ∈ d :: ds', c.isDigit = true)
    (hlead : ¬(1 < (d :: ds').length ∧ (d :: ds').head? = some '0'))
    (hstop : numStop rest = true) :
    parseIntToken ((d :: ds') ++ rest) = some ((foldDigits (d :: ds') : Int), rest) := by
  have hd : d.isDigit = true := hdig d (List.mem_cons_self d ds')
  have hdm : ¬ d = '-' := fun he => absurd (he ▸ hd) (by decide)
  rcases numStop_stops rest hstop with ⟨hs1, hs2⟩
  have htw : ((d :: ds') ++ rest).takeWhile Char.isDigit = d :: ds' :=
    takeWhile_all_append Char.isDigit rest hs1 (d :: ds') hdig
  have hdw : ((d :: ds') ++ rest).dropWhile Char.isDigit = rest :=
    dropWhile_all_append Char.isDigit rest hs2 (d :: ds') hdig
  unfold parseIntToken
  dsimp only
  rw [List.cons_append, intSgn_not_minus d (ds' ++ rest) hdm]
  dsimp only
  rw [← List.cons_append, htw, hdw]
  rw [show (d :: ds').isEmpty = false from rfl]
  rw [if_neg (by simp)]
  rw [if_neg hlead]
  split
  · next heq =>
    simp [numStop] at hstop
  · next heq =>
    simp [numStop] at hstop
  · next heq =>
    simp [numStop] at hstop
  · rfl

theorem parseIntToken_intChars (n : Int) (rest : List Char) (hstop : numStop rest = true) :
    parseIntToken (intChars n ++ rest) = some (n, rest) := by
  cases n with
  | ofNat m =>
    rw [show intChars (Int.ofNat m) = natChars m from rfl]
    rcases List.exists_cons_of_ne_nil (natChars_nonempty m) with ⟨d, ds', hcons⟩
    rw [hcons]
    rw [parseIntToken_digits d ds' rest (hcons ▸ natChars_digits m)
      (hcons ▸ natChars_no_leading_zero m) hstop]
    rw [← hcons, foldDigits_natChars m]
    rw [show ((m : Nat) : Int) = Int.ofNat m from rfl]
  | negSucc m =>
    rw [show intChars (Int.negSucc m) = '-' :: natChars (m + 1) from rfl]
    rcases numStop_stops rest hstop with ⟨hs1, hs2⟩
    have htw : (natChars (m + 1) ++ rest).takeWhile Char.isDigit = natChars (m + 1) :=
      takeWhile_all_append Char.isDigit rest hs1 (natChars (m + 1)) (natChars_digits (m + 1))
    have hdw : (natChars (m + 1) ++ rest).dropWhile Char.isDigit = rest :=
      dropWhile_all_append Char.isDigit rest hs2 (natChars (m + 1)) (natChars_digits (m + 1))
    unfold parseIntToken
    dsimp only
    rw [List.cons_append, intSgn_minus (natChars (m + 1) ++ rest)]
    dsimp only
    rw [htw, hdw]
    rw [if_neg (by simp [natChars_nonempty (m + 1)])]
    rw [if_neg (natChars_no_leading_zero (m + 1))]
    split
    · next heq2 =>
      simp [numStop] at hstop
    · next heq2 =>
      simp [numStop] at hstop
    · next heq2 =>
      simp [numStop] at hstop
    · rw [if_pos rfl, foldDigits_natChars (m + 1)]
      have hns : (-(((m + 1 : Nat) : Nat) : Int)) = Int.negSucc m := by
        rw [Int.negSucc_eq]
        push_cast
        ring
      rw [hns]

theorem jsize_pos (x : Json) : 1 ≤ x.jsize := by
  cases x with
  | null => exact Nat.le_refl 1
  | bool b => exact Nat.le_refl 1
  | num n => exact Nat.le_refl 1
  | str s => exact Nat.le_refl 1
  | arr xs => exact Nat.le_add_right 1 xs.jsizeL
  | obj kvs => exact Nat.le_add_right 1 kvs.jsizeO

theorem skipWs_cons_not_ws (c : Char) (t : List Char) (h : jsonWSb c = false) :
    skipWs (c :: t) = c :: t := by
  simp [skipWs, List.dropWhile_cons, h]

theorem parseVal_null_red (f : Nat) (rest : List Char) :
    parseVal (f + 1) ('n' :: 'u' :: 'l' :: 'l' :: rest) = some (.null, rest) := rfl

theorem parseVal_true_red (f : Nat) (rest : List Char) :
    parseVal (f + 1) ('t' :: 'r' :: 'u' :: 'e' :: rest) = some (.bool true, rest) := rfl

theorem parseVal_false_red (f : Nat) (rest : List Char) :
    parseVal (f + 1) ('f' :: 'a' :: 'l' :: 's' :: 'e' :: rest) = some (.bool false, rest) := rfl

theorem parseVal_quote_red (f : Nat) (tail : List Char) :
    parseVal (f + 1) ('"' :: tail) =
      (parseStrBody tail).map (fun p => (Json.str ⟨p.1⟩, p.2)) := rfl

theorem parseVal_brace_red (f : Nat) (tail : List Char) :
    parseVal (f + 1) ('{' :: tail) =
      (parseObjFirst f tail).map (fun p => (Json.obj p.1, p.2)) := rfl

theorem parseVal_brack_red (f : Nat) (tail : List Char) :
    parseVal (f + 1) ('[' :: tail) =
      (parseArrFirst f tail).map (fun p => (Json.arr p.1, p.2)) := rfl

theorem parseVal_succ_eq (f : Nat) (cs : List Char) :
    parseVal (f + 1) cs =
      (match skipWs cs with
       | '{' :: rest => (parseObjFirst f rest).map (fun p => (Json.obj p.1, p.2))
       | '[' :: rest => (parseArrFirst f rest).map (fun p => (Json.arr p.1, p.2))
       | '"' :: rest => (parseStrBody rest).map (fun p => (Json.str ⟨p.1⟩, p.2))
       | 't' :: 'r' :: 'u' :: 'e' :: rest => some (Json.bool true, rest)
       | 'f' :: 'a' :: 'l' :: 's' :: 'e' :: rest => some (Json.bool false, rest)
       | 'n' :: 'u' :: 'l' :: 'l' :: rest => some (Json.null, rest)
       | other => (parseIntToken other).map (fun p => (Json.num p.1, p.2))) := rfl

theorem parseVal_ws (fuel : Nat) (c : Char) (t : List Char) (h : jsonWSb c = true) :
    parseVal fuel (c :: t) = parseVal fuel t := by
  cases fuel with
  | zero => rfl
  | succ f =>
    rw [parseVal_succ_eq, parseVal_succ_eq]
    rw [show skipWs (c :: t) = skipWs t from by simp [skipWs, List.dropWhile_cons, h]]

theorem parseArrFirst_close (f : Nat) (rest : List Char) :
    parseArrFirst (f + 1) (']' :: rest) = some (.nil, rest) := rfl

theorem parseArrFirst_succ_eq (f : Nat) (cs : List Char) :
    parseArrFirst (f + 1) cs =
      (match skipWs cs with
       | ']' :: rest => some (.nil, rest)
       | other =>
         (parseVal f other).bind
           (fun p => (parseArrRest f p.2).map (fun q => (JsonList.cons p.1 q.1, q.2)))) := rfl

theorem parseArrRest_close (f : Nat) (rest : List Char) :
    parseArrRest (f + 1) (']' :: rest) = some (.nil, rest) := rfl

theorem parseArrRest_comma (f : Nat) (rest : List Char) :
    parseArrRest (f + 1) (',' :: rest) =
      (parseVal f rest).bind
        (fun p => (parseArrRest f p.2).map (fun q => (JsonList.cons p.1 q.1, q.2))) := rfl

theorem parseObjFirst_close (f : Nat) (rest : List Char) :
    parseObjFirst (f + 1) ('}' :: rest) = some (.nil, rest) := rfl

theorem parseObjFirst_quote (f : Nat) (t : List Char) :
    parseObjFirst (f + 1) ('"' :: t) = parseObjPair f .nil ('"' :: t) := rfl

theorem parseObjPair_quote (f : Nat) (acc : JsonObj) (t : List Char) :
    parseObjPair (f + 1) acc ('"' :: t) =
      (parseStrBody t).bind (fun kp =>
        match skipWs kp.2 with
        | ':' :: rest2 =>
          (parseVal f rest2).bind
            (fun vp => parseObjRest f (acc.insert ⟨kp.1⟩ vp.1) vp.2)
        | _ => none) := rfl

theorem parseObjRest_close (f : Nat) (acc : JsonObj) (rest : List Char) :
    parseObjRest (f + 1) acc ('}' :: rest) = some (acc, rest) := rfl

theorem parseObjRest_comma (f : Nat) (acc : JsonObj) (rest : List Char) :
    parseObjRest (f + 1) acc (',' :: rest) = parseObjPair f acc rest := rfl

theorem parseObjPair_succ_eq (f : Nat) (acc : JsonObj) (cs : List Char) :
    parseObjPair (f + 1) acc cs =
      (match skipWs cs with
       | '"' :: rest =>
         (parseStrBody rest).bind (fun kp =>
           match skipWs kp.2 with
           | ':' :: rest2 =>
             (parseVal f rest2).bind
               (fun vp => parseObjRest f (acc.insert ⟨kp.1⟩ vp.1) vp.2)
           | _ => none)
       | _ => none) := rfl

theorem parseObjPair_ws (fuel : Nat) (acc : JsonObj) (c : Char) (t : List Char)
    (h : jsonWSb c = true) :
    parseObjPair fuel acc (c :: t) = parseObjPair fuel acc t := by
  cases fuel with
  | zero => rfl
  | succ f =>
    rw [parseObjPair_succ_eq, parseObjPair_succ_eq]
    rw [show skipWs (c :: t) = skipWs t from by simp [skipWs, List.dropWhile_cons, h]]

theorem dumps_null_eq : Json.dumps .null = ['n', 'u', 'l', 'l'] := rfl

theorem dumps_str_eq (s : String) : Json.dumps (.str s) = dumpStrChars s := rfl

theorem dumps_num_eq (n : Int) : Json.dumps (.num n) = intChars n := rfl

theorem dumps_arr_eq (xs : JsonList) :
    Json.dumps (.arr xs) = '[' :: (xs.dumpsItems ++ [']']) := rfl

theorem dumps_obj_eq (kvs : JsonObj) :
    Json.dumps (.obj kvs) = '{' :: (kvs.dumpsFields ++ ['}']) := rfl

theorem dumpsItems_cons_eq (hd : Json) (tl : JsonList) :
    JsonList.dumpsItems (.cons hd tl) = hd.dumps ++ tl.dumpsRestItems := rfl

theorem dumpsRestItems_cons_eq (hd : Json) (tl : JsonList) :
    JsonList.dumpsRestItems (.cons hd tl) = ',' :: ' ' :: (hd.dumps ++ tl.dumpsRestItems) := rfl

theorem dumpsFields_cons_eq (k : String) (v : Json) (tl : JsonObj) :
    JsonObj.dumpsFields (.cons k v tl) =
      dumpStrChars k ++ ':' :: ' ' :: (v.dumps ++ tl.dumpsRestFields) := rfl

theorem dumpsRestFields_cons_eq (k : String) (v : Json) (tl : JsonObj) :
    JsonObj.dumpsRestFields (.cons k v tl) =
      ',' :: ' ' :: (dumpStrChars k ++ ':' :: ' ' :: (v.dumps ++ tl.dumpsRestFields)) := rfl

theorem objCat_cons_eq (k : String) (v : Json) (t b : JsonObj) :
    objCat (.cons k v t) b = .cons k v (objCat t b) := rfl

theorem objCat_nil_left (b : JsonObj) : objCat .nil b = b := rfl

theorem objCat_nil_right : ∀ a : JsonObj, objCat a .nil = a
  | .nil => rfl
  | .cons k v t => by rw [objCat_cons_eq, objCat_nil_right t]

theorem objCat_assoc : ∀ a b c : JsonObj, objCat (objCat a b) c = objCat a (objCat b c)
  | .nil, _, _ => rfl
  | .cons k v t, b, c => by
    rw [objCat_cons_eq, objCat_cons_eq, objCat_cons_eq, objCat_assoc t b c]

theorem memKey_cons_eq (key k0 : String) (v : Json) (tl : JsonObj) :
    JsonObj.memKey key (.cons k0 v tl) = (decide (k0 = key) || tl.memKey key) := rfl

theorem memKey_objCat (key : String) :
    ∀ a b : JsonObj,
      JsonObj.memKey key (objCat a b) = (JsonObj.memKey key a || JsonObj.memKey key b)
  | .nil, _ => rfl
  | .cons k0 v t, b => by
    rw [objCat_cons_eq, memKey_cons_eq, memKey_cons_eq, memKey_objCat key t b, Bool.or_assoc]

theorem insert_fresh (k : String) (v : Json) :
    ∀ acc : JsonObj, JsonObj.memKey k acc = false →
      acc.insert k v = objCat acc (.cons k v .nil)
  | .nil, _ => rfl
  | .cons k0 v0 t, h => by
    rw [memKey_cons_eq, Bool.or_eq_false_iff] at h
    rw [show JsonObj.insert (.cons k0 v0 t) k v =
      (if k0 = k then .cons k0 v t else .cons k0 v0 (t.insert k v)) from rfl]
    rw [if_neg (by
      intro he
      have h1 := h.1
      rw [he] at h1
      simp at h1)]
    rw [objCat_cons_eq, insert_fresh k v t h.2]

theorem digit_bounds (c : Char) (h : c.isDigit = true) : 48 ≤ c.toNat ∧ c.toNat ≤ 57 := by
  simp only [Char.isDigit, decide_eq_true_eq, Bool.and_eq_true] at h
  rcases h with ⟨h1, h2⟩
  exact ⟨h1, h2⟩

set_option maxHeartbeats 1000000 in
theorem parseVal_other_red (f : Nat) (d : Char) (tail : List Char)
    (h0 : jsonWSb d = false) (h1 : ¬ d = '{') (h2 : ¬ d = '[') (h3 : ¬ d = '"')
    (h4 : ¬ d = 't') (h5 : ¬ d = 'f') (h6 : ¬ d = 'n') :
    parseVal (f + 1) (d :: tail) =
      (parseIntToken (d :: tail)).map (fun p => (Json.num p.1, p.2)) := by
  rw [parseVal_succ_eq, skipWs_cons_not_ws d tail h0]
  split
  · next rest heq =>
    injection heq with ha _
    exact absurd ha h1
  · next rest heq =>
    injection heq with ha _
    exact absurd ha h2
  · next rest heq =>
    injection heq with ha _
    exact absurd ha h3
  · next rest heq =>
    injection heq with ha _
    exact absurd ha h4
  · next rest heq =>
    injection heq with ha _
    exact absurd ha h5
  · next rest heq =>
    injection heq with ha _
    exact absurd ha h6
  · rfl

theorem parseArrFirst_other (f : Nat) (d : Char) (tail : List Char)
    (h0 : jsonWSb d = false) (h1 : ¬ d = ']') :
    parseArrFirst (f + 1) (d :: tail) =
      (parseVal f (d :: tail)).bind
        (fun p => (parseArrRest f p.2).map (fun q => (JsonList.cons p.1 q.1, q.2))) := by
  rw [parseArrFirst_succ_eq, skipWs_cons_not_ws d tail h0]
  split
  · next rest heq =>
    injection heq with ha _
    exact absurd ha h1
  · rfl

theorem noDupKeys_arr_eq (xs : JsonList) : Json.noDupKeys (.arr xs) = xs.noDupKeysL := rfl

theorem noDupKeys_obj_eq (kvs : JsonObj) :
    Json.noDupKeys (.obj kvs) = (kvs.keysFresh && kvs.noDupKeysO) := rfl

theorem noDupKeysL_cons_eq (hd : Json) (tl : JsonList) :
    JsonList.noDupKeysL (.cons hd tl) = (hd.noDupKeys && tl.noDupKeysL) := rfl

theorem noDupKeysO_cons_eq (k : String) (v : Json) (tl : JsonObj) :
    JsonObj.noDupKeysO (.cons k v tl) = (v.noDupKeys && tl.noDupKeysO) := rfl

theorem keysFresh_cons_eq (k : String) (v : Json) (tl : JsonObj) :
    JsonObj.keysFresh (.cons k v tl) = (!tl.memKey k && tl.keysFresh) := rfl

theorem jsize_arr_eq (xs : JsonList) : Json.jsize (.arr xs) = 1 + xs.jsizeL := rfl

theorem jsize_obj_eq (kvs : JsonObj) : Json.jsize (.obj kvs) = 1 + kvs.jsizeO := rfl

theorem jsizeL_cons_eq (hd : Json) (tl : JsonList) :
    JsonList.jsizeL (.cons hd tl) = hd.jsize + tl.jsizeL := rfl

theorem jsizeO_cons_eq (k : String) (v : Json) (tl : JsonObj) :
    JsonObj.jsizeO (.cons k v tl) = 1 + v.jsize + tl.jsizeO := rfl

theorem numStop_comma (t : List Char) : numStop (',' :: t) = true := rfl

theorem numStop_rbrack (t : List Char) : numStop (']' :: t) = true := rfl

theorem numStop_rbrace (t : List Char) : numStop ('}' :: t) = true := rfl

theorem numStop_restItems (tl : JsonList) (rest : List Char) :
    numStop (tl.dumpsRestItems ++ ']' :: rest) = true := by
  cases tl with
  | nil => exact numStop_rbrack rest
  | cons hd tl =>
    rw [dumpsRestItems_cons_eq, List.cons_append]
    exact numStop_comma _

theorem numStop_restFields (tl : JsonObj) (rest : List Char) :
    numStop (tl.dumpsRestFields ++ '}' :: rest) = true := by
  cases tl with
  | nil => exact numStop_rbrace rest
  | cons k v tl =>
    rw [dumpsRestFields_cons_eq, List.cons_append]
    exact numStop_comma _

theorem dumps_head (x : Json) :
    ∃ d t, x.dumps = d :: t ∧ jsonWSb d = false ∧ ¬ d = ']' ∧ ¬ d = '}' := by
  cases x with
  | null => exact ⟨'n', _, rfl, by decide, by decide, by decide⟩
  | bool b =>
    cases b with
    | false => exact ⟨'f', _, rfl, by decide, by decide, by decide⟩
    | true => exact ⟨'t', _, rfl, by decide, by decide, by decide⟩
  | num n =>
    cases n with
    | ofNat m =>
      rcases List.exists_cons_of_ne_nil (natChars_nonempty m) with ⟨d, t, hcons⟩
      have hd : d.isDigit = true := by
        apply natChars_digits m
        rw [hcons]
        exact List.mem_cons_self d t
      have hb := digit_bounds d hd
      refine ⟨d, t, ?_, ?_, ?_, ?_⟩
      · rw [dumps_num_eq, show intChars (Int.ofNat m) = natChars m from rfl, hcons]
      · simp only [jsonWSb, Bool.or_eq_false_iff, decide_eq_false_iff_not]
        refine ⟨⟨⟨?_, ?_⟩, ?_⟩, ?_⟩ <;>
          (intro he; rw [he] at hb; revert hb; decide)
      · intro he
        rw [he] at hb
        revert hb
        decide
      · intro he
        rw [he] at hb
        revert hb
        decide
    | negSucc m =>
      exact ⟨'-', _, rfl, by decide, by decide, by decide⟩
  | str s => exact ⟨'"', _, rfl, by decide, by decide, by decide⟩
  | arr xs => exact ⟨'[', _, rfl, by decide, by decide, by decide⟩
  | obj kvs => exact ⟨'{', _, rfl, by decide, by decide, by decide⟩

theorem digit_not_special (d : Char) (h : d.isDigit = true) :
    jsonWSb d = false ∧ ¬ d = '{' ∧ ¬ d = '[' ∧ ¬ d = '"' ∧ ¬ d = 't' ∧ ¬ d = 'f' ∧
      ¬ d = 'n' := by
  have hb := digit_bounds d h
  refine ⟨?_, ?_, ?_, ?_, ?_, ?_, ?_⟩
  · simp only [jsonWSb, Bool.or_eq_false_iff, decide_eq_false_iff_not]
    refine ⟨⟨⟨?_, ?_⟩, ?_⟩, ?_⟩ <;> (intro he; rw [he] at hb; revert hb; decide)
  all_goals (intro he; rw [he] at hb; revert hb; decide)

theorem parseObjPair_quote_full (f : Nat) (acc : JsonObj) (k : String) (R2 : List Char) :
    parseObjPair (f + 1) acc
      ('"' :: ((k.data.map escChar).flatten ++ ('"' :: (':' :: (' ' :: R2))))) =
      (parseVal f (' ' :: R2)).bind
        (fun vp => parseObjRest f (acc.insert k vp.1) vp.2) := by
  rw [parseObjPair_quote]
  rw [parseStrBody_dumps k.data (':' :: (' ' :: R2))]
  rw [Option.some_bind]
  rw [skipWs_cons_not_ws ':' _ (by decide)]
  rfl

theorem parseObjFirst_pair (f2 : Nat) (k : String) (v : Json) (tl : JsonObj) (R : List Char) :
    parseObjFirst (f2 + 1) (JsonObj.dumpsFields (.cons k v tl) ++ R) =
      parseObjPair f2 .nil (JsonObj.dumpsFields (.cons k v tl) ++ R) := by
  rw [dumpsFields_cons_eq,
    show dumpStrChars k = '"' :: ((k.data.map escChar).flatten ++ ['"']) from rfl]
  simp only [List.cons_append, List.append_assoc, List.singleton_append, List.nil_append]
  rw [parseObjFirst_quote]

set_option maxHeartbeats 1600000 in
theorem parser_dumps_bundle : ∀ fuel : Nat,
    (∀ (x : Json) (rest : List Char), 2 * x.jsize ≤ fuel → x.noDupKeys = true →
      numStop rest = true → parseVal fuel (x.dumps ++ rest) = some (x, rest)) ∧
    (∀ (xs : JsonList) (rest : List Char), 1 + 2 * xs.jsizeL ≤ fuel →
      xs.noDupKeysL = true →
      parseArrFirst fuel (xs.dumpsItems ++ (']' :: rest)) = some (xs, rest)) ∧
    (∀ (xs : JsonList) (rest : List Char), 1 + 2 * xs.jsizeL ≤ fuel →
      xs.noDupKeysL = true →
      parseArrRest fuel (xs.dumpsRestItems ++ (']' :: rest)) = some (xs, rest)) ∧
    (∀ (k : String) (v : Json) (tl : JsonObj) (acc : JsonObj) (rest : List Char),
      2 + 2 * v.jsize + 2 * tl.jsizeO ≤ fuel →
      (JsonObj.cons k v tl).keysFresh = true →
      (JsonObj.cons k v tl).noDupKeysO = true →
      (∀ key, JsonObj.memKey key (JsonObj.cons k v tl) = true →
        JsonObj.memKey key acc = false) →
      parseObjPair fuel acc (JsonObj.dumpsFields (.cons k v tl) ++ ('}' :: rest)) =
        some (objCat acc (.cons k v tl), rest)) ∧
    (∀ (kvs : JsonObj) (acc : JsonObj) (rest : List Char),
      1 + 2 * kvs.jsizeO ≤ fuel → kvs.keysFresh = true → kvs.noDupKeysO = true →
      (∀ key, JsonObj.memKey key kvs = true → JsonObj.memKey key acc = false) →
      parseObjRest fuel acc (kvs.dumpsRestFields ++ ('}' :: rest)) =
        some (objCat acc kvs, rest)) := by
  intro fuel
  induction fuel using Nat.strong_induction_on with
  | _ fuel ih =>
  refine ⟨?_, ?_, ?_, ?_, ?_⟩
  · -- parseVal
    intro x rest hfuel hdup hstop
    rcases fuel with _ | f
    · exact absurd hfuel (by have := jsize_pos x; omega)
    cases x with
    | null =>
      rw [dumps_null_eq, List.cons_append, List.cons_append, List.cons_append,
        List.cons_append, List.nil_append]
      exact parseVal_null_red f rest
    | bool b =>
      cases b with
      | true =>
        rw [show Json.dumps (.bool true) = ['t', 'r', 'u', 'e'] from rfl, List.cons_append,
          List.cons_append, List.cons_append, List.cons_append, List.nil_append]
        exact parseVal_true_red f rest
      | false =>
        rw [show Json.dumps (.bool false) = ['f', 'a', 'l', 's', 'e'] from rfl,
          List.cons_append, List.cons_append, List.cons_append, List.cons_append,
          List.cons_append, List.nil_append]
        exact parseVal_false_red f rest
    | num n =>
      rw [dumps_num_eq]
      cases n with
      | ofNat m =>
        rcases List.exists_cons_of_ne_nil (natChars_nonempty m) with ⟨d, t, hcons⟩
        have hd : d.isDigit = true := by
          apply natChars_digits m
          rw [hcons]
          exact List.mem_cons_self d t
        rcases digit_not_special d hd with ⟨g0, g1, g2, g3, g4, g5, g6⟩
        rw [show intChars (Int.ofNat m) = natChars m from rfl, hcons, List.cons_append]
        rw [parseVal_other_red f d (t ++ rest) g0 g1 g2 g3 g4 g5 g6]
        rw [← List.cons_append, ← hcons,
          show natChars m = intChars (Int.ofNat m) from rfl]
        rw [parseIntToken_intChars (Int.ofNat m) rest hstop]
        rfl
      | negSucc m =>
        rw [show intChars (Int.negSucc m) = '-' :: natChars (m + 1) from rfl,
          List.cons_append]
        rw [parseVal_other_red f '-' _ (by decide) (by decide) (by decide) (by decide)
          (by decide) (by decide) (by decide)]
        rw [← List.cons_append,
          show ('-' :: natChars (m + 1) : List Char) = intChars (Int.negSucc m) from rfl]
        rw [parseIntToken_intChars (Int.negSucc m) rest hstop]
        rfl
    | str s =>
      rw [dumps_str_eq,
        show dumpStrChars s = '"' :: ((s.data.map escChar).flatten ++ ['"']) from rfl,
        List.cons_append, parseVal_quote_red, List.append_assoc, List.singleton_append]
      rw [parseStrBody_dumps s.data rest]
      rfl
    | arr xs =>
      rw [dumps_arr_eq, List.cons_append, parseVal_brack_red, List.append_assoc,
        List.singleton_append]
      have hb : 1 + 2 * xs.jsizeL ≤ f := by
        rw [jsize_arr_eq] at hfuel
        omega
      rw [(ih f (Nat.lt_succ_self f)).2.1 xs rest hb
        (by rw [noDupKeys_arr_eq] at hdup; exact hdup)]
      rfl
    | obj kvs =>
      rw [dumps_obj_eq, List.cons_append, parseVal_brace_red, List.append_assoc,
        List.singleton_append]
      rw [noDupKeys_obj_eq, Bool.and_eq_true] at hdup
      cases kvs with
      | nil =>
        rw [show JsonObj.dumpsFields .nil = [] from rfl, List.nil_append]
        have hjz : JsonObj.jsizeO .nil = 0 := rfl
        rcases f with _ | f2
        · rw [jsize_obj_eq, hjz] at hfuel
          omega
        rw [parseObjFirst_close f2 rest]
        rfl
      | cons k v tl =>
        have hjv := jsize_pos v
        rw [jsize_obj_eq, jsizeO_cons_eq] at hfuel
        rcases f with _ | f2
        · omega
        rw [parseObjFirst_pair f2 k v tl ('}' :: rest)]
        rw [(ih f2 (by omega)).2.2.2.1 k v tl .nil rest (by omega) hdup.1 hdup.2
          (fun key _ => rfl)]
        rfl
  · -- parseArrFirst
    intro xs rest hfuel hdup
    rcases fuel with _ | f
    · omega
    cases xs with
    | nil =>
      rw [show JsonList.dumpsItems .nil = [] from rfl, List.nil_append]
      exact parseArrFirst_close f rest
    | cons hd tl =>
      have hjh := jsize_pos hd
      rw [jsizeL_cons_eq] at hfuel
      rw [noDupKeysL_cons_eq, Bool.and_eq_true] at hdup
      rw [dumpsItems_cons_eq, List.append_assoc]
      rcases dumps_head hd with ⟨d, t, hdt, g0, g1, g2⟩
      rw [hdt, List.cons_append]
      rw [parseArrFirst_other f d _ g0 g1]
      rw [← List.cons_append, ← hdt]
      rw [(ih f (Nat.lt_succ_self f)).1 hd (tl.dumpsRestItems ++ (']' :: rest)) (by omega)
        hdup.1 (numStop_restItems tl rest)]
      rw [Option.some_bind]
      rw [(ih f (Nat.lt_succ_self f)).2.2.1 tl rest (by omega) hdup.2]
      rfl
  · -- parseArrRest
    intro xs rest hfuel hdup
    rcases fuel with _ | f
    · omega
    cases xs with
    | nil =>
      rw [show JsonList.dumpsRestItems .nil = [] from rfl, List.nil_append]
      exact parseArrRest_close f rest
    | cons hd tl =>
      have hjh := jsize_pos hd
      rw [jsizeL_cons_eq] at hfuel
      rw [noDupKeysL_cons_eq, Bool.and_eq_true] at hdup
      rw [dumpsRestItems_cons_eq, List.cons_append, List.cons_append, List.append_assoc]
      rw [parseArrRest_comma]
      rw [parseVal_ws f ' ' _ (by decide)]
      rw [(ih f (Nat.lt_succ_self f)).1 hd (tl.dumpsRestItems ++ (']' :: rest)) (by omega)
        hdup.1 (numStop_restItems tl rest)]
      rw [Option.some_bind]
      rw [(ih f (Nat.lt_succ_self f)).2.2.1 tl rest (by omega) hdup.2]
      rfl
  · -- parseObjPair
    intro k v tl acc rest hfuel hfresh hdup hdisj
    rcases fuel with _ | f
    · omega
    rw [keysFresh_cons_eq, Bool.and_eq_true] at hfresh
    rw [noDupKeysO_cons_eq, Bool.and_eq_true] at hdup
    rw [dumpsFields_cons_eq,
      show dumpStrChars k = '"' :: ((k.data.map escChar).flatten ++ ['"']) from rfl]
    simp only [List.cons_append, List.append_assoc, List.singleton_append, List.nil_append]
    rw [parseObjPair_quote_full f acc k
      (v.dumps ++ (tl.dumpsRestFields ++ ('}' :: rest)))]
    rw [parseVal_ws f ' ' _ (by decide)]
    rw [(ih f (Nat.lt_succ_self f)).1 v (tl.dumpsRestFields ++ ('}' :: rest)) (by omega)
      hdup.1 (numStop_restFields tl rest)]
    rw [Option.some_bind]
    have hkacc : JsonObj.memKey k acc = false :=
      hdisj k (by rw [memKey_cons_eq]; simp)
    rw [insert_fresh k v acc hkacc]
    have hdisj2 : ∀ key, JsonObj.memKey key tl = true →
        JsonObj.memKey key (objCat acc (.cons k v .nil)) = false := by
      intro key hkey
      rw [memKey_objCat]
      have h1 : JsonObj.memKey key acc = false :=
        hdisj key (by rw [memKey_cons_eq, hkey]; simp)
      have h2 : ¬ k = key := by
        intro he
        rw [he] at hfresh
        have := hfresh.1
        rw [hkey] at this
        simp at this
      rw [h1, memKey_cons_eq]
      have h3 : JsonObj.memKey key (.nil : JsonObj) = false := rfl
      rw [h3]
      simp [h2]
    rw [(ih f (Nat.lt_succ_self f)).2.2.2.2 tl (objCat acc (.cons k v .nil)) rest
      (by omega) hfresh.2 hdup.2 hdisj2]
    rw [objCat_assoc]
    rfl
  · -- parseObjRest
    intro kvs acc rest hfuel hfresh hdup hdisj
    rcases fuel with _ | f
    · omega
    cases kvs with
    | nil =>
      rw [show JsonObj.dumpsRestFields .nil = [] from rfl, List.nil_append]
      rw [parseObjRest_close f acc rest, objCat_nil_right]
    | cons k v tl =>
      rw [jsizeO_cons_eq] at hfuel
      rw [dumpsRestFields_cons_eq, List.cons_append, List.cons_append]
      rw [parseObjRest_comma]
      rw [parseObjPair_ws f acc ' ' _ (by decide)]
      rw [← dumpsFields_cons_eq]
      exact (ih f (Nat.lt_succ_self f)).2.2.2.1 k v tl acc rest (by omega) hfresh hdup hdisj

mutual

theorem jsize_le_dumps : ∀ x : Json, x.jsize ≤ x.dumps.length
  | .null => by decide
  | .bool b => by cases b <;> decide
  | .num n => by
    cases n with
    | ofNat m =>
      show 1 ≤ (natChars m).length
      exact List.length_pos.mpr (natChars_nonempty m)
    | negSucc m =>
      show 1 ≤ ('-' :: natChars (m + 1)).length
      simp
  | .str s => by
    show 1 ≤ ('"' :: ((s.data.map escChar).flatten ++ ['"'])).length
    simp
  | .arr xs => by
    have h := jsizeL_le_items xs
    rw [jsize_arr_eq, dumps_arr_eq]
    simp only [List.length_cons, List.length_append]
    omega
  | .obj kvs => by
    have h := jsizeO_le_fields kvs
    rw [jsize_obj_eq, dumps_obj_eq]
    simp only [List.length_cons, List.length_append]
    omega

theorem jsizeL_le_items : ∀ xs : JsonList, xs.jsizeL ≤ xs.dumpsItems.length
  | .nil => Nat.le.refl
  | .cons hd tl => by
    have h1 := jsize_le_dumps hd
    have h2 := jsizeL_le_restItems tl
    rw [jsizeL_cons_eq, dumpsItems_cons_eq, List.length_append]
    omega

theorem jsizeL_le_restItems : ∀ xs : JsonList, xs.jsizeL ≤ xs.dumpsRestItems.length
  | .nil => Nat.le.refl
  | .cons hd tl => by
    have h1 := jsize_le_dumps hd
    have h2 := jsizeL_le_restItems tl
    rw [jsizeL_cons_eq, dumpsRestItems_cons_eq]
    simp only [List.length_cons, List.length_append]
    omega

theorem jsizeO_le_fields : ∀ kvs : JsonObj, kvs.jsizeO ≤ kvs.dumpsFields.length
  | .nil => Nat.le.refl
  | .cons k v tl => by
    have h1 := jsize_le_dumps v
    have h2 := jsizeO_le_restFields tl
    have h3 : 2 ≤ (dumpStrChars k).length := by
      show 2 ≤ ('"' :: ((k.data.map escChar).flatten ++ ['"'])).length
      simp only [List.length_cons, List.length_append, List.length_singleton]
      omega
    rw [jsizeO_cons_eq, dumpsFields_cons_eq]
    simp only [List.length_append, List.length_cons]
    omega

theorem jsizeO_le_restFields : ∀ kvs : JsonObj, kvs.jsizeO ≤ kvs.dumpsRestFields.length
  | .nil => Nat.le.refl
  | .cons k v tl => by
    have h1 := jsize_le_dumps v
    have h2 := jsizeO_le_restFields tl
    have h3 : 2 ≤ (dumpStrChars k).length := by
      show 2 ≤ ('"' :: ((k.data.map escChar).flatten ++ ['"'])).length
      simp only [List.length_cons, List.length_append, List.length_singleton]
      omega
    rw [jsizeO_cons_eq, dumpsRestFields_cons_eq]
    simp only [List.length_append, List.length_cons]
    omega

end

/-- `json.loads` inverts `json.dumps` on every value whose objects all
have distinct keys (the image of Python's JSON-serializable values). -/
theorem json_loads_dumps (x : Json) (h : x.noDupKeys = true) :
    json_loads (json_string x) = some x := by
  have hle := jsize_le_dumps x
  have hdata : (json_string x).data = x.dumps := rfl
  have hrun := (parser_dumps_bundle (2 * (json_string x).data.length + 2)).1 x []
    (by rw [hdata]; omega) h rfl
  rw [List.append_nil] at hrun
  unfold json_loads
  rw [hdata] at hrun ⊢
  rw [hrun]
  rfl

/-- **C6.** The repair parser round-trips serialization: for every value
whose objects have distinct keys (every Python-JSON-serializable value),
`_safe_json_loads(json.dumps(X))` returns X itself; when strict parsing
fails it parses the first greedy brace- or bracket-delimited span
(spanning newlines), so the claim's garbage example yields `{"a": 1}`;
and when both attempts fail it returns the `None` failure indicator
rather than raising. -/
theorem repair_parser_roundtrip :
    (∀ x : Json, x.noDupKeys = true → safe_json_loads (json_string x) = some x) ∧
    safe_json_loads "garbage text \x7b\"a\":1\x7d trailing" =
      some (.obj (.cons "a" (.num 1) .nil)) ∧
    (∀ s, json_loads s = none →
      safe_json_loads s = (regexSpan s).bind (fun sub => json_loads sub)) ∧
    safe_json_loads "no json here" = none := by
  refine ⟨?_, by rfl, ?_, by rfl⟩
  · intro x h
    unfold safe_json_loads
    rw [json_loads_dumps x h]
  · intro s hnone
    unfold safe_json_loads
    rw [hnone]
    cases hreg : regexSpan s
    · rfl
    · rfl

/-- **C6 (witness).** The round-trip on a concrete nested value with a
negative number, an escaped-character string, booleans and nesting; and
the repair-or-fail path on a concrete garbage input. -/
theorem repair_parser_roundtrip_witness :
    safe_json_loads (json_string (.obj (.cons "a" (.num (-3))
        (.cons "b" (.arr (.cons (.str "x \"y\nz") (.cons (.bool true) .nil)))
          (.cons "c" .null .nil))))) =
      some (.obj (.cons "a" (.num (-3))
        (.cons "b" (.arr (.cons (.str "x \"y\nz") (.cons (.bool true) .nil)))
          (.cons "c" .null .nil)))) ∧
    safe_json_loads "no json here" =
      (regexSpan "no json here").bind (fun sub => json_loads sub) :=
  ⟨repair_parser_roundtrip.1 _ rfl,
   repair_parser_roundtrip.2.2.1 "no json here" rfl⟩
